import Mathlib

/-!
Verification of the arXiv paper-import pipeline implemented in
`src/src-tauri/src/lib.rs` of the `pdf-reader` repository.

The Rust source is shallowly embedded:
* pure helper functions (`parse_plain_arxiv_id`, `parse_arxiv_input`,
  `compact_text`, `sanitize_title_for_filename`, the version-resolution
  loop of `import_arxiv_paper`) are translated to Lean functions over
  `String` / `List Char`;
* the effectful orchestrator `import_arxiv_paper` is translated to a pure
  function over an explicit environment (`Env`) that records the answers
  the outside world gives to each fallible network / filesystem step, and
  it additionally returns the ordered trace of side effects it performed;
* behavior of external crates that the source calls (`regex`, `url`,
  `sanitize_filename`) is modelled directly from those crates' documented
  semantics, restricted to the situations the source exercises; each such
  model carries a doc comment naming its origin and its simplifications.
-/

/-! ## Character classes

The Rust source manipulates characters via `char::is_whitespace`
(Unicode `White_Space`), the regex classes `[A-Za-z]`, `[0-9]`,
`[A-Za-z\.\-]`, and a few literal characters.  We define these classes
on `Char` via the code point. -/

/-- Model of Rust `char::is_whitespace`: the Unicode `White_Space`
property, listed by code point. -/
def rustIsWhitespace (c : Char) : Bool :=
  let n := c.toNat
  n = 0x9 || n = 0xA || n = 0xB || n = 0xC || n = 0xD || n = 0x20 ||
  n = 0x85 || n = 0xA0 || n = 0x1680 || (0x2000 ≤ n && n ≤ 0x200A) ||
  n = 0x2028 || n = 0x2029 || n = 0x202F || n = 0x205F || n = 0x3000

/-- The regex class `[0-9]`. -/
def isDigitChar (c : Char) : Bool :=
  0x30 ≤ c.toNat && c.toNat ≤ 0x39

/-- The regex class `[A-Za-z]` (ASCII letters only, as in the `regex`
crate without the `unicode` character-class escapes). -/
def isAsciiAlpha (c : Char) : Bool :=
  (0x41 ≤ c.toNat && c.toNat ≤ 0x5A) || (0x61 ≤ c.toNat && c.toNat ≤ 0x7A)

/-- The regex class `[A-Za-z\.\-]` used for the legacy archive name. -/
def isLegacyChar (c : Char) : Bool :=
  isAsciiAlpha c || c = '.' || c = '-'

/-- ASCII lowercasing of one character.  `str::to_lowercase` performs full
Unicode lowercasing, but every string it is applied to in the source
(regex captures over letters, digits, dot, hyphen, slash, and DNS host
names) is ASCII, where
the two agree. -/
def asciiToLower (c : Char) : Char :=
  if 0x41 ≤ c.toNat ∧ c.toNat ≤ 0x5A then Char.ofNat (c.toNat + 0x20) else c

/-- ASCII lowercasing of a string (model of `str::to_lowercase` on the
ASCII strings the source applies it to). -/
def toLowerStr (s : String) : String :=
  ⟨s.data.map asciiToLower⟩

/-! ## String helpers modelling `str` methods -/

/-- Model of Rust `str::trim`: remove leading and trailing
`White_Space` characters. -/
def rustTrim (s : String) : String :=
  ⟨((s.data.dropWhile rustIsWhitespace).reverse.dropWhile rustIsWhitespace).reverse⟩

/-- Strip a literal head from a character list; `some rest` iff the list
starts with the head (model of `str::strip_prefix` at the call sites of
`parse_arxiv_input`). -/
def stripPre : List Char → List Char → Option (List Char)
  | [], cs => some cs
  | _ :: _, [] => none
  | p :: ps, c :: cs => if c = p then stripPre ps cs else none

/-- Model of `candidate.strip_suffix(".pdf").unwrap_or(candidate)`:
remove one trailing `.pdf` when present, otherwise keep the string. -/
def stripSufPdf (cs : List Char) : List Char :=
  match stripPre (".pdf".data.reverse) cs.reverse with
  | some r => r.reverse
  | none => cs

/-- Model of `str::trim_matches('/')`: remove all leading and trailing
slashes. -/
def trimMatchesSlash (s : String) : List Char :=
  ((s.data.dropWhile (fun c => c == '/')).reverse.dropWhile (fun c => c == '/')).reverse

/-- One-character replacement, modelling `str::replace(char, one-char
string)` as used by the source (`replace('/', " ")`, `replace('\\', " ")`,
`replace('/', "_")`). -/
def replaceChar (s : String) (a b : Char) : String :=
  ⟨s.data.map (fun c => if c = a then b else c)⟩

/-- Tokenizer behind `str::split_whitespace`: splits into the maximal
runs of non-whitespace characters, dropping all whitespace.
`acc` accumulates the current token in reverse. -/
def splitWsAux : List Char → List Char → List (List Char)
  | [], acc => if acc.isEmpty then [] else [acc.reverse]
  | c :: cs, acc =>
    if rustIsWhitespace c then
      if acc.isEmpty then splitWsAux cs [] else acc.reverse :: splitWsAux cs []
    else
      splitWsAux cs (c :: acc)

/-- Model of `str::split_whitespace().collect::<Vec<_>>()`. -/
def splitWs (cs : List Char) : List (List Char) :=
  splitWsAux cs []

/-- `compact_text` from the source: split on whitespace and re-join the
tokens with single spaces. -/
def compactText (value : String) : String :=
  ⟨List.intercalate [' '] (splitWs value.data)⟩

/-! ## Identifier parser (`parse_plain_arxiv_id`, `parse_arxiv_input`) -/

/-- Numeric value of a digit string. -/
def digitsToNat (ds : List Char) : Nat :=
  ds.foldl (fun n c => n * 10 + (c.toNat - 0x30)) 0

/-- Model of `str::parse::<u32>` on an all-digit string: the numeric
value when it fits in `u32`, otherwise `none` (overflow is an `Err`,
which the source turns into `None` via `.ok()`). -/
def parseU32 (ds : List Char) : Option Nat :=
  if digitsToNat ds ≤ 4294967295 then some (digitsToNat ds) else none

/-- Parse the optional anchored version suffix `(?:v(?P<version>[0-9]+))?$`
of the identifier regex.  `none` means the regex does not match at all;
`some v` means the regex matches and the `version` capture parses to `v`
(`some none` both when the suffix is absent and when its digits overflow
`u32`). -/
def parseVersionTail : List Char → Option (Option Nat)
  | [] => some none
  | 'v' :: ds => if !ds.isEmpty && ds.all isDigitChar then some (parseU32 ds) else none
  | _ => none

/-- Core of `parse_plain_arxiv_id`: match the anchored regex
`^(?P<base>(?:[A-Za-z\.\-]+/[0-9]{7}|[0-9]{4}\.[0-9]{4,5}))(?:v(?P<version>[0-9]+))?$`
against an already-trimmed character list and return the lowercased base
with the optional version.  The regex is deterministic on every input:
the legacy alternative fires exactly when the input contains `/`
(the class `[A-Za-z\.\-]` and the modern alternative exclude `/`), and
each digit group is forced to be a maximal digit run because its
follower (`.`/`v`/end) is a non-digit. -/
def parsePlainCore (cs : List Char) : Option (String × Option Nat) :=
  let pre := cs.takeWhile (fun c => c != '/')
  match cs.dropWhile (fun c => c != '/') with
  | '/' :: post =>
    if pre.isEmpty || !pre.all isLegacyChar then none
    else
      let run := post.takeWhile isDigitChar
      if run.length = 7 then
        match parseVersionTail (post.drop 7) with
        | some ver => some (⟨(pre ++ '/' :: run).map asciiToLower⟩, ver)
        | none => none
      else none
  | _ =>
    let run1 := cs.takeWhile isDigitChar
    if run1.length = 4 then
      match cs.drop 4 with
      | '.' :: rest2 =>
        let run2 := rest2.takeWhile isDigitChar
        if run2.length = 4 || run2.length = 5 then
          match parseVersionTail (rest2.drop run2.length) with
          | some ver => some (⟨(run1 ++ '.' :: run2).map asciiToLower⟩, ver)
          | none => none
        else none
      | _ => none
    else none

/-- `parse_plain_arxiv_id` from the source: trim, match the identifier
regex, lowercase the base, parse the optional version capture. -/
def parsePlainArxivId (value : String) : Option (String × Option Nat) :=
  parsePlainCore (rustTrim value).data

/-- Scheme characters accepted after the first letter of a URL scheme. -/
def isSchemeChar (c : Char) : Bool :=
  isAsciiAlpha c || isDigitChar c || c = '+' || c = '-' || c = '.'

/-- Split `scheme:rest`: succeeds iff the input starts with an ASCII
letter followed by scheme characters and a colon.  Inputs without a
scheme (in particular every string matched by the identifier regex,
which has no `:`) are rejected, which models `Url::parse` returning
`Err(RelativeUrlWithoutBase)` so that `parse_arxiv_input` falls through
to `parse_plain_arxiv_id`. -/
def splitScheme (cs : List Char) : Option (List Char × List Char) :=
  match cs with
  | [] => none
  | c :: _ =>
    if isAsciiAlpha c then
      match cs.dropWhile isSchemeChar with
      | ':' :: rest => some (cs.takeWhile isSchemeChar, rest)
      | _ => none
    else none

/-- Result of URL parsing as consumed by `parse_arxiv_input`: the host
(`Url::host_str`, `none` for host-less URLs such as `mailto:`) and the
serialized path (`Url::path`). -/
structure ModelUrl where
  host : Option String
  path : String
deriving DecidableEq, Repr

/-- Extract the host from an authority component: drop the userinfo
(up to the last `@`), drop the port (from the first `:`), lowercase
(the `url` crate lowercases ASCII domains). -/
def hostOfAuthority (auth : List Char) : List Char :=
  let hp := (auth.reverse.takeWhile (fun c => c != '@')).reverse
  (hp.takeWhile (fun c => c != ':')).map asciiToLower

/-- Model of `Url::parse` from the `url` crate, restricted to what
`parse_arxiv_input` consumes.  An input parses iff it carries a scheme;
with an authority (`scheme://auth/path?query#frag`) the host is extracted
from the authority and the path is everything from the first `/` up to
`?`/`#` (defaulting to `/`); without `//` the URL is opaque and has no
host.  Simplifications with respect to the WHATWG parser (documented
behaviors the source never relies on): interior tabs/newlines are not
stripped, percent-encoding is not applied, an empty host is treated as a
parse error, and a special-scheme authority must be introduced by
exactly `//`. -/
def urlParse (s : String) : Option ModelUrl :=
  match splitScheme s.data with
  | none => none
  | some (_, rest) =>
    match rest with
    | '/' :: '/' :: t =>
      let auth := t.takeWhile (fun c => c != '/' && c != '?' && c != '#')
      let host := hostOfAuthority auth
      if host.isEmpty then none
      else
        let after := t.dropWhile (fun c => c != '/' && c != '?' && c != '#')
        let path := after.takeWhile (fun c => c != '?' && c != '#')
        some { host := some ⟨host⟩, path := if path.isEmpty then "/" else ⟨path⟩ }
    | _ =>
      some { host := none, path := ⟨rest.takeWhile (fun c => c != '?' && c != '#')⟩ }

/-- `parse_arxiv_input` from the source: trim; reject empty input; if the
input parses as a URL, require host `arxiv.org`/`www.arxiv.org` and a
path starting (after trimming slashes) with `abs/` or `pdf/` (the latter
with an optional `.pdf` extension stripped); otherwise treat the input
as a bare identifier. -/
def parseArxivInput (value : String) : Option (String × Option Nat) :=
  let trimmed := rustTrim value
  if trimmed = "" then none
  else
    match urlParse trimmed with
    | some url =>
      match url.host with
      | none => none
      | some hostRaw =>
        let host := toLowerStr hostRaw
        if host != "arxiv.org" && host != "www.arxiv.org" then none
        else
          let path := trimMatchesSlash url.path
          match stripPre "abs/".data path with
          | some candidate => parsePlainArxivId ⟨candidate⟩
          | none =>
            match stripPre "pdf/".data path with
            | some candidate => parsePlainArxivId ⟨stripSufPdf candidate⟩
            | none => none
    | none => parsePlainArxivId trimmed

/-! ## Filename sanitizer (`sanitize_title_for_filename`) -/

/-- Characters removed by the `sanitize_filename` crate's `ILLEGAL_RE`
regex `[/\?<>\\:\*\|"]`. -/
def illegalChar (c : Char) : Bool :=
  c = '/' || c = '?' || c = '<' || c = '>' || c = '\\' || c = ':' || c = '*' || c = '|' || c = '"'

/-- Characters removed by the crate's `CONTROL_RE` regex
`[\x00-\x1f\x80-\x9f]`. -/
def controlChar (c : Char) : Bool :=
  c.toNat ≤ 0x1f || (0x80 ≤ c.toNat && c.toNat ≤ 0x9f)

/-- UTF-8 encoded length of one character. -/
def utf8Len (c : Char) : Nat :=
  if c.toNat < 0x80 then 1 else if c.toNat < 0x800 then 2
  else if c.toNat < 0x10000 then 3 else 4

/-- Longest prefix whose UTF-8 encoding fits in `budget` bytes (the
crate's truncation to 255 bytes at a character boundary). -/
def truncBytes : List Char → Nat → List Char
  | [], _ => []
  | c :: cs, budget =>
    if utf8Len c ≤ budget then c :: truncBytes cs (budget - utf8Len c) else []

/-- Model of `sanitize_filename::sanitize` with the crate's default
options on a non-Windows target (the two Windows-only rules,
reserved device names and trailing dot/space trimming, are not
modelled): remove the illegal and control characters, replace a
resulting all-dots name (`^\.+$`) by the empty string, truncate to
255 bytes at a character boundary. -/
def sanitizeCrate (s : String) : String :=
  let kept := s.data.filter (fun c => !illegalChar c && !controlChar c)
  let kept := if !kept.isEmpty && kept.all (fun c => c = '.') then [] else kept
  ⟨truncBytes kept 255⟩

/-- `sanitize_title_for_filename` from the source: compact whitespace,
turn path separators into spaces, join the whitespace-separated tokens
with underscores, truncate to 96 characters, sanitize, and fall back to
`"paper"` when the result is empty. -/
def sanitizeTitleForFilename (title : String) : String :=
  let compact := compactText title
  let underscored := replaceChar (replaceChar compact '/' ' ') '\\' ' '
  let joined : String := ⟨List.intercalate ['_'] (splitWs underscored.data)⟩
  let truncated : String := ⟨joined.data.take 96⟩
  let cleaned := sanitizeCrate truncated
  if cleaned = "" then "paper" else cleaned

/-! ## Data model of the import pipeline -/

/-- `ArxivApiAuthor` (deserialized feed author). -/
structure ArxivApiAuthor where
  name : Option String
deriving DecidableEq, Repr

/-- `ArxivApiLink` (deserialized feed link). -/
structure ArxivApiLink where
  href : Option String
deriving DecidableEq, Repr

/-- `ArxivApiEntry` (deserialized feed entry). -/
structure ArxivApiEntry where
  id : Option String := none
  title : Option String := none
  summary : Option String := none
  published : Option String := none
  updated : Option String := none
  author : List ArxivApiAuthor := []
  link : List ArxivApiLink := []
deriving DecidableEq, Repr

/-- `ArxivApiFeed` (deserialized feed). -/
structure ArxivApiFeed where
  entry : List ArxivApiEntry
deriving DecidableEq, Repr

/-- `ArxivPaperMetadata` from the source. -/
structure ArxivPaperMetadata where
  arxiv_id : String
  version : Nat
  title : String
  authors : List String
  summary : String
  published : String
  updated : String
  abs_url : String
  pdf_url : String
deriving DecidableEq, Repr

/-- `ArxivImportResult` from the source (`pdf_size : u64` is modelled
as `Nat`). -/
structure ArxivImportResult where
  status : String
  reason : Option String
  pdf_path : Option String
  pdf_size : Option Nat
  metadata_path : Option String
  paper : Option ArxivPaperMetadata
deriving DecidableEq, Repr

/-- `skipped_result` from the source. -/
def skippedResult (reason : String) (paper : Option ArxivPaperMetadata) : ArxivImportResult :=
  { status := "skipped", reason := some reason, pdf_path := none,
    pdf_size := none, metadata_path := none, paper := paper }

/-! ## Version resolution (lines 488-511 of `import_arxiv_paper`) -/

/-- The `for link in &entry.link` loop: starting from `latest_version = 1`,
adopt `max(version, 1)` from the first link whose href parses to the
given base id with an explicit version, and stop there; links without an
href, with a different base id, or without a version are skipped. -/
def linkScanVersion (baseId : String) : List ArxivApiLink → Nat
  | [] => 1
  | l :: rest =>
    match l.href with
    | none => linkScanVersion baseId rest
    | some href =>
      match parseArxivInput href with
      | some (b, some v) => if b = baseId then max v 1 else linkScanVersion baseId rest
      | _ => linkScanVersion baseId rest

/-- The first tier of version resolution: the value of `latest_version`
after inspecting `entry.id` (lines 488-497): `max(version, 1)` when the
id parses to the same base id with an explicit version, `1` otherwise. -/
def identityVersion (baseId : String) (entryId : Option String) : Nat :=
  match entryId with
  | none => 1
  | some eid =>
    match parseArxivInput eid with
    | some (b, some v) => if b = baseId then max v 1 else 1
    | _ => 1

/-- Full version resolution (lines 488-511): inspect the entry id, then
scan the link list whenever `latest_version` is still `1`. -/
def resolveLatestVersion (baseId : String) (entryId : Option String)
    (links : List ArxivApiLink) : Nat :=
  let latest := identityVersion baseId entryId
  if latest = 1 then linkScanVersion baseId links else latest

/-! ## Metadata construction (lines 513-553) -/

/-- Line 513: the effective version is the caller-requested one when
present, else `max(latest_version, 1)`. -/
def effectiveVersion (requested : Option Nat) (latest : Nat) : Nat :=
  requested.getD (max latest 1)

/-- Line 514: `format!("{}v{}", base_id, version)`. -/
def idWithVersionOf (baseId : String) (version : Nat) : String :=
  baseId ++ "v" ++ toString version

/-- Construction of the `ArxivPaperMetadata` record from the chosen feed
entry (lines 488-548). -/
def resolvePaper (baseId : String) (requestedVersion : Option Nat)
    (entry : ArxivApiEntry) : ArxivPaperMetadata :=
  let latestVersion := resolveLatestVersion baseId entry.id entry.link
  let version := effectiveVersion requestedVersion latestVersion
  let idWithVersion := idWithVersionOf baseId version
  let title :=
    match entry.title with
    | some raw =>
      let c := compactText raw
      if c = "" then "arXiv " ++ idWithVersion else c
    | none => "arXiv " ++ idWithVersion
  { arxiv_id := baseId
    version := version
    title := title
    authors := (entry.author.filterMap (fun a => a.name.map compactText)).filter
      (fun name => name ≠ "")
    summary := (entry.summary.map compactText).getD ""
    published := entry.published.getD ""
    updated := entry.updated.getD ""
    abs_url := "https://arxiv.org/abs/" ++ idWithVersion
    pdf_url := "https://arxiv.org/pdf/" ++ idWithVersion ++ ".pdf" }

/-- Lines 550-551: the common file stem
`format!("{}_{}", id_with_version.replace('/', "_"), sanitize_title_for_filename(&title))`. -/
def stemOfPaper (p : ArxivPaperMetadata) : String :=
  replaceChar (idWithVersionOf p.arxiv_id p.version) '/' '_' ++ "_" ++
    sanitizeTitleForFilename p.title

/-- Model of `Path::join` on string paths: insert a separator unless the
directory already ends with one. -/
def joinPath (dir name : String) : String :=
  if dir.endsWith "/" then dir ++ name else dir ++ "/" ++ name

/-! ## The orchestrator (`import_arxiv_paper`) -/

/-- The side effects `import_arxiv_paper` can perform, in program order:
HTTP GET requests, directory creation, and file writes.  `removeFile`
is the deletion operation the ambient `std::fs` API offers; the source
never performs it, which is what the no-rollback theorem states. -/
inductive FsEffect where
  | netGet (url : String)
  | createDir (path : String)
  | writeFile (path : String)
  | removeFile (path : String)
deriving DecidableEq, Repr

/-- Environment of one `import_arxiv_paper` invocation: the answers the
filesystem and the network give to each fallible step, in the order the
source consults them.  Status codes are the HTTP status of the two GET
requests; `feedParsed` is the result of `quick_xml::de::from_str` on the
feed body. -/
structure Env where
  targetExists : Bool
  createDirOk : Bool
  targetIsDir : Bool
  clientBuildOk : Bool
  apiSendOk : Bool
  apiStatus : Nat
  apiTextOk : Bool
  feedParsed : Option ArxivApiFeed
  pdfExists : Bool
  metaExists : Bool
  pdfSendOk : Bool
  pdfStatus : Nat
  pdfBytesOk : Bool
  pdfByteLen : Nat
  pdfWriteOk : Bool
  serializeOk : Bool
  metaWriteOk : Bool
deriving DecidableEq, Repr

/-- `StatusCode::is_success`: 2xx. -/
def httpSuccess (status : Nat) : Bool :=
  200 ≤ status && status ≤ 299

/-- Lines 570-631: download the PDF, persist it, persist the sidecar
metadata.  Returns the result together with the effect trace of this
phase (successful writes are recorded; the GET is recorded as soon as it
is issued). -/
def importDownloadPhase (env : Env) (paper : ArxivPaperMetadata)
    (pdfPath metadataPath : String) : ArxivImportResult × List FsEffect :=
  let ops := [FsEffect.netGet paper.pdf_url]
  if !env.pdfSendOk then (skippedResult "network_error" (some paper), ops)
  else if !httpSuccess env.pdfStatus then
    (skippedResult (if env.pdfStatus = 404 then "paper_not_found" else "network_error")
      (some paper), ops)
  else if !env.pdfBytesOk then (skippedResult "network_error" (some paper), ops)
  else if !env.pdfWriteOk then (skippedResult "write_failed" (some paper), ops)
  else
    let ops := ops ++ [FsEffect.writeFile pdfPath]
    if !env.serializeOk then (skippedResult "write_failed" (some paper), ops)
    else if !env.metaWriteOk then (skippedResult "write_failed" (some paper), ops)
    else
      ({ status := "downloaded", reason := none, pdf_path := some pdfPath,
         pdf_size := some env.pdfByteLen, metadata_path := some metadataPath,
         paper := some paper }, ops ++ [FsEffect.writeFile metadataPath])

/-- `import_arxiv_paper` (lines 408-632), as a pure function of the
environment.  Returns the `ArxivImportResult` and the ordered trace of
side effects performed. -/
def importArxivPaper (env : Env) (inputUrlOrId targetDir conflictPolicy : String) :
    ArxivImportResult × List FsEffect :=
  if conflictPolicy ≠ "skip" then (skippedResult "invalid_conflict_policy" none, [])
  else
    match parseArxivInput inputUrlOrId with
    | none => (skippedResult "invalid_link" none, [])
    | some (baseId, requestedVersion) =>
      if rustTrim targetDir = "" then (skippedResult "write_failed" none, [])
      else
        let dirOps := if env.targetExists then [] else [FsEffect.createDir targetDir]
        if !env.targetExists && !env.createDirOk then (skippedResult "write_failed" none, dirOps)
        else if !env.targetIsDir then (skippedResult "write_failed" none, dirOps)
        else if !env.clientBuildOk then (skippedResult "network_error" none, dirOps)
        else
          let apiUrl := "https://export.arxiv.org/api/query?id_list=" ++ baseId
          let ops1 := dirOps ++ [FsEffect.netGet apiUrl]
          if !env.apiSendOk then (skippedResult "network_error" none, ops1)
          else if !httpSuccess env.apiStatus then (skippedResult "network_error" none, ops1)
          else if !env.apiTextOk then (skippedResult "network_error" none, ops1)
          else
            match env.feedParsed with
            | none => (skippedResult "paper_not_found" none, ops1)
            | some feed =>
              match feed.entry with
              | [] => (skippedResult "paper_not_found" none, ops1)
              | entry :: _ =>
                let paper := resolvePaper baseId requestedVersion entry
                let fileStem := stemOfPaper paper
                let pdfPath := joinPath targetDir (fileStem ++ ".pdf")
                let metadataPath := joinPath targetDir (fileStem ++ ".metadata.json")
                if conflictPolicy = "skip" && env.pdfExists then
                  ({ status := "skipped", reason := some "file_exists",
                     pdf_path := some pdfPath, pdf_size := none,
                     metadata_path := if env.metaExists then some metadataPath else none,
                     paper := some paper }, ops1)
                else
                  let phase := importDownloadPhase env paper pdfPath metadataPath
                  (phase.1, ops1 ++ phase.2)

/-- Interpretation of an effect trace on a file set: writes add the
path, removals delete it, network and directory operations leave the
file set unchanged. -/
def applyFs (fs : List String) : FsEffect → List String
  | FsEffect.writeFile p => if p ∈ fs then fs else p :: fs
  | FsEffect.removeFile p => fs.filter (fun q => q ≠ p)
  | _ => fs

/-- Run a trace on an initial file set. -/
def runFs (fs : List String) (ops : List FsEffect) : List String :=
  ops.foldl applyFs fs

/-- The guard deciding whether metadata resolution (steps up to and
including the feed decode, lines 413-486) succeeds: everything before
the conflict check went well and the feed has at least one entry. -/
def metadataResolved (env : Env) (inputUrlOrId targetDir conflictPolicy : String) : Bool :=
  conflictPolicy = "skip" && (parseArxivInput inputUrlOrId).isSome &&
  rustTrim targetDir ≠ "" && (env.targetExists || env.createDirOk) &&
  env.targetIsDir && env.clientBuildOk && env.apiSendOk &&
  httpSuccess env.apiStatus && env.apiTextOk &&
  (match env.feedParsed with
   | some feed => !feed.entry.isEmpty
   | none => false)

/-- The feed entry the orchestrator uses: the head of the parsed feed's
entry list. -/
def resolvedEntry (env : Env) : Option ArxivApiEntry :=
  env.feedParsed.bind (fun feed => feed.entry.head?)

/-! ## The identifier grammar, constructively -/

/-- The characters contributed by an optional version suffix. -/
def sfxChars : Option (List Char) → List Char
  | none => []
  | some ds => 'v' :: ds

/-- Build a bare identifier string from base characters and an optional
version-suffix digit list (the `vN` part). -/
def mkBareId (base : List Char) (suffix : Option (List Char)) : String :=
  ⟨base ++ sfxChars suffix⟩

/-- The legacy shape `<letters-dots-hyphens>/<7 digits>`. -/
def IsLegacyBase (cs : List Char) : Prop :=
  ∃ hd d7, cs = hd ++ '/' :: d7 ∧ hd ≠ [] ∧ (∀ c ∈ hd, isLegacyChar c = true) ∧
    d7.length = 7 ∧ (∀ c ∈ d7, isDigitChar c = true)

/-- The modern shape `<4 digits>.<4-5 digits>`. -/
def IsModernBase (cs : List Char) : Prop :=
  ∃ d4 d5, cs = d4 ++ '.' :: d5 ∧ d4.length = 4 ∧ (d5.length = 4 ∨ d5.length = 5) ∧
    (∀ c ∈ d4, isDigitChar c = true) ∧ (∀ c ∈ d5, isDigitChar c = true)

/-- A well-formed version suffix: absent, or a nonempty digit list. -/
def GoodSuffix : Option (List Char) → Prop
  | none => True
  | some ds => ds ≠ [] ∧ (∀ c ∈ ds, isDigitChar c = true)

/-- The requested version the parser reports for a suffix. -/
def versionOfSuffix : Option (List Char) → Option Nat
  | none => none
  | some ds => parseU32 ds

/-- Whether a link would be adopted by the scanning loop: its href
parses to the given base id with an explicit version. -/
def linkVersionMatch (baseId : String) (l : ArxivApiLink) : Bool :=
  match l.href with
  | some href =>
    match parseArxivInput href with
    | some (b, some _) => b = baseId
    | _ => false
  | none => false

/-- Total UTF-8 byte length of a character list. -/
def utf8Sum (l : List Char) : Nat :=
  (l.map utf8Len).sum

/-- Feed entry used by the orchestrator witnesses. -/
def entryW : ArxivApiEntry :=
  { id := some "https://arxiv.org/abs/1706.03762v7",
    title := some "Attention Is All You Need" }

/-- All-success environment used by the orchestrator witnesses. -/
def envW : Env :=
  { targetExists := true, createDirOk := true, targetIsDir := true,
    clientBuildOk := true, apiSendOk := true, apiStatus := 200, apiTextOk := true,
    feedParsed := some ⟨[entryW]⟩, pdfExists := false, metaExists := false,
    pdfSendOk := true, pdfStatus := 200, pdfBytesOk := true, pdfByteLen := 7,
    pdfWriteOk := true, serializeOk := true, metaWriteOk := true }

/-! ## Generic list and character lemmas -/

theorem takeWhile_of_all {α : Type} {p : α → Bool} :
    ∀ {l : List α}, (∀ a ∈ l, p a = true) → l.takeWhile p = l
  | [], _ => rfl
  | a :: l, h => by
    have ha := h a (List.mem_cons_self a l)
    have ih := takeWhile_of_all (fun x hx => h x (List.mem_cons_of_mem a hx))
    simp [List.takeWhile_cons, ha, ih]

theorem dropWhile_of_all {α : Type} {p : α → Bool} :
    ∀ {l : List α}, (∀ a ∈ l, p a = true) → l.dropWhile p = []
  | [], _ => rfl
  | a :: l, h => by
    have ha := h a (List.mem_cons_self a l)
    have ih := dropWhile_of_all (fun x hx => h x (List.mem_cons_of_mem a hx))
    simp [List.dropWhile_cons, ha, ih]

theorem takeWhile_mid {α : Type} {p : α → Bool} {b : α} (hb : p b = false) :
    ∀ (l₁ : List α) (l₂ : List α), (∀ a ∈ l₁, p a = true) →
      (l₁ ++ b :: l₂).takeWhile p = l₁
  | [], l₂, _ => by simp [List.takeWhile_cons, hb]
  | a :: l₁, l₂, h => by
    have ha := h a (List.mem_cons_self a l₁)
    have ih := takeWhile_mid hb l₁ l₂ (fun x hx => h x (List.mem_cons_of_mem a hx))
    simp [List.takeWhile_cons, ha, ih]

theorem dropWhile_mid {α : Type} {p : α → Bool} {b : α} (hb : p b = false) :
    ∀ (l₁ : List α) (l₂ : List α), (∀ a ∈ l₁, p a = true) →
      (l₁ ++ b :: l₂).dropWhile p = b :: l₂
  | [], l₂, _ => by simp [List.dropWhile_cons, hb]
  | a :: l₁, l₂, h => by
    have ha := h a (List.mem_cons_self a l₁)
    have ih := dropWhile_mid hb l₁ l₂ (fun x hx => h x (List.mem_cons_of_mem a hx))
    simp [List.dropWhile_cons, ha, ih]

/-- Characters with code points in the printable ASCII range are not
whitespace. -/
theorem ws_false_of_ascii {c : Char} (h1 : 0x21 ≤ c.toNat) (h2 : c.toNat ≤ 0x7E) :
    rustIsWhitespace c = false := by
  simp only [rustIsWhitespace, Bool.or_eq_false_iff, decide_eq_false_iff_not,
    Bool.and_eq_false_iff, decide_eq_true_eq]
  omega

theorem char_ne_of_toNat_ne {c d : Char} (h : c.toNat ≠ d.toNat) : c ≠ d :=
  fun hc => h (by rw [hc])

/-- Unpack `isLegacyChar` into code-point facts. -/
theorem isLegacyChar_toNat {c : Char} (h : isLegacyChar c = true) :
    (0x41 ≤ c.toNat ∧ c.toNat ≤ 0x5A) ∨ (0x61 ≤ c.toNat ∧ c.toNat ≤ 0x7A) ∨
      c.toNat = 0x2E ∨ c.toNat = 0x2D := by
  simp only [isLegacyChar, isAsciiAlpha, Bool.or_eq_true, Bool.and_eq_true,
    decide_eq_true_eq] at h
  rcases h with ((h | h) | h) | h
  · exact Or.inl h
  · exact Or.inr (Or.inl h)
  · subst h; exact Or.inr (Or.inr (Or.inl rfl))
  · subst h; exact Or.inr (Or.inr (Or.inr rfl))

theorem isDigitChar_toNat {c : Char} (h : isDigitChar c = true) :
    0x30 ≤ c.toNat ∧ c.toNat ≤ 0x39 := by
  simpa [isDigitChar] using h

theorem dropWhile_of_none {α : Type} {p : α → Bool} :
    ∀ {l : List α}, (∀ a ∈ l, p a = false) → l.dropWhile p = l
  | [], _ => rfl
  | a :: l, h => by
    have ha := h a (List.mem_cons_self a l)
    simp [List.dropWhile_cons, ha]

/-- A string all of whose characters are non-whitespace is unchanged by
`rustTrim`. -/
theorem rustTrim_of_no_ws {s : String} (h : ∀ c ∈ s.data, rustIsWhitespace c = false) :
    rustTrim s = s := by
  unfold rustTrim
  rw [dropWhile_of_none h,
    dropWhile_of_none (fun c hc => h c (List.mem_reverse.mp hc)), List.reverse_reverse]

theorem isLegacyChar_not_ws {c : Char} (h : isLegacyChar c = true) :
    rustIsWhitespace c = false := by
  rcases isLegacyChar_toNat h with h1 | h1 | h1 | h1 <;>
    exact ws_false_of_ascii (by omega) (by omega)

theorem isDigitChar_not_ws {c : Char} (h : isDigitChar c = true) :
    rustIsWhitespace c = false := by
  have h1 := isDigitChar_toNat h
  exact ws_false_of_ascii (by omega) (by omega)

theorem isLegacyChar_ne_slash {c : Char} (h : isLegacyChar c = true) : (c != '/') = true := by
  simp only [bne_iff_ne, ne_eq]
  intro hc
  rcases isLegacyChar_toNat h with h1 | h1 | h1 | h1 <;>
    (rw [hc] at h1; exact absurd h1 (by decide))

theorem isDigitChar_ne_slash {c : Char} (h : isDigitChar c = true) : (c != '/') = true := by
  simp only [bne_iff_ne, ne_eq]
  intro hc
  have h1 := isDigitChar_toNat h
  rw [hc] at h1
  exact absurd h1 (by decide)

theorem isDigitChar_ne_colon {c : Char} (h : isDigitChar c = true) : c ≠ ':' := by
  intro hc
  have h1 := isDigitChar_toNat h
  rw [hc] at h1
  exact absurd h1 (by decide)

theorem isLegacyChar_ne_colon {c : Char} (h : isLegacyChar c = true) : c ≠ ':' := by
  intro hc
  rcases isLegacyChar_toNat h with h1 | h1 | h1 | h1 <;>
    (rw [hc] at h1; exact absurd h1 (by decide))

theorem idChar_facts {c : Char}
    (h : isLegacyChar c = true ∨ isDigitChar c = true ∨ c = '/' ∨ c = '.' ∨ c = 'v') :
    rustIsWhitespace c = false ∧ c ≠ ':' ∧ c ≠ '?' ∧ c ≠ '#' := by
  rcases h with h | h | h | h | h
  · refine ⟨isLegacyChar_not_ws h, isLegacyChar_ne_colon h, ?_, ?_⟩
    · intro hc
      rcases isLegacyChar_toNat h with h1 | h1 | h1 | h1 <;>
        (rw [hc] at h1; exact absurd h1 (by decide))
    · intro hc
      rcases isLegacyChar_toNat h with h1 | h1 | h1 | h1 <;>
        (rw [hc] at h1; exact absurd h1 (by decide))
  · have h1 := isDigitChar_toNat h
    refine ⟨isDigitChar_not_ws h, isDigitChar_ne_colon h, ?_, ?_⟩
    · intro hc; rw [hc] at h1; exact absurd h1 (by decide)
    · intro hc; rw [hc] at h1; exact absurd h1 (by decide)
  · subst h; exact ⟨by decide, by decide, by decide, by decide⟩
  · subst h; exact ⟨by decide, by decide, by decide, by decide⟩
  · subst h; exact ⟨by decide, by decide, by decide, by decide⟩

/-- Every character of a well-formed bare identifier belongs to the
identifier alphabet. -/
theorem mkBareId_char_classes {base : List Char} {sfx : Option (List Char)}
    (hbase : IsLegacyBase base ∨ IsModernBase base) (hs : GoodSuffix sfx) :
    ∀ c ∈ base ++ sfxChars sfx,
      isLegacyChar c = true ∨ isDigitChar c = true ∨ c = '/' ∨ c = '.' ∨ c = 'v' := by
  intro c hc
  rcases List.mem_append.mp hc with hc | hc
  · rcases hbase with ⟨hd, d7, hbe, _, hhdc, _, h7c⟩ | ⟨d4, d5, hbe, _, _, h4c, h5c⟩
    · subst hbe
      rcases List.mem_append.mp hc with hc | hc
      · exact Or.inl (hhdc c hc)
      · rcases List.mem_cons.mp hc with hc | hc
        · exact Or.inr (Or.inr (Or.inl hc))
        · exact Or.inr (Or.inl (h7c c hc))
    · subst hbe
      rcases List.mem_append.mp hc with hc | hc
      · exact Or.inr (Or.inl (h4c c hc))
      · rcases List.mem_cons.mp hc with hc | hc
        · exact Or.inr (Or.inr (Or.inr (Or.inl hc)))
        · exact Or.inr (Or.inl (h5c c hc))
  · cases sfx with
    | none => cases hc
    | some ds =>
      rcases List.mem_cons.mp hc with hc | hc
      · exact Or.inr (Or.inr (Or.inr (Or.inr hc)))
      · exact Or.inr (Or.inl (hs.2 c hc))

/-- `parse_plain_arxiv_id` on a well-formed legacy identifier. -/
theorem parsePlainCore_legacy (hd d7 : List Char) (sfx : Option (List Char))
    (hhd : hd ≠ []) (hhdc : ∀ c ∈ hd, isLegacyChar c = true)
    (h7 : d7.length = 7) (h7c : ∀ c ∈ d7, isDigitChar c = true)
    (hsfx : GoodSuffix sfx) :
    parsePlainCore (hd ++ '/' :: (d7 ++ sfxChars sfx)) =
      some (⟨(hd ++ '/' :: d7).map asciiToLower⟩, versionOfSuffix sfx) := by
  have hpre : (hd ++ '/' :: (d7 ++ sfxChars sfx)).takeWhile (fun c => c != '/') = hd :=
    takeWhile_mid (by decide) hd _ (fun a ha => isLegacyChar_ne_slash (hhdc a ha))
  have hdrop : (hd ++ '/' :: (d7 ++ sfxChars sfx)).dropWhile (fun c => c != '/') =
      '/' :: (d7 ++ sfxChars sfx) :=
    dropWhile_mid (by decide) hd _ (fun a ha => isLegacyChar_ne_slash (hhdc a ha))
  have hemp : hd.isEmpty = false := by
    cases hd with
    | nil => exact absurd rfl hhd
    | cons a l => rfl
  have hall : hd.all isLegacyChar = true := List.all_eq_true.mpr hhdc
  have hrun : (d7 ++ sfxChars sfx).takeWhile isDigitChar = d7 := by
    cases sfx with
    | none => simpa [sfxChars] using takeWhile_of_all h7c
    | some ds => exact takeWhile_mid (by decide) d7 _ h7c
  have hdrop7 : (d7 ++ sfxChars sfx).drop 7 = sfxChars sfx := by
    rw [← h7]; exact List.drop_left d7 _
  have htail : parseVersionTail (sfxChars sfx) = some (versionOfSuffix sfx) := by
    cases sfx with
    | none => rfl
    | some ds =>
      have hne : ds.isEmpty = false := by
        cases ds with
        | nil => exact absurd rfl hsfx.1
        | cons a l => rfl
      have hall2 : ds.all isDigitChar = true := List.all_eq_true.mpr hsfx.2
      simp [parseVersionTail, sfxChars, hne, hall2, versionOfSuffix]
  unfold parsePlainCore
  simp only [hpre, hdrop, hemp, hall, Bool.not_true, Bool.or_false, Bool.false_or,
    if_false, hrun, h7, if_true, hdrop7, htail]
  simp

/-- `parse_plain_arxiv_id` on a well-formed modern identifier. -/
theorem parsePlainCore_modern (d4 d5 : List Char) (sfx : Option (List Char))
    (h4 : d4.length = 4) (h5 : d5.length = 4 ∨ d5.length = 5)
    (h4c : ∀ c ∈ d4, isDigitChar c = true) (h5c : ∀ c ∈ d5, isDigitChar c = true)
    (hsfx : GoodSuffix sfx) :
    parsePlainCore (d4 ++ '.' :: (d5 ++ sfxChars sfx)) =
      some (⟨(d4 ++ '.' :: d5).map asciiToLower⟩, versionOfSuffix sfx) := by
  have hnoslash : ∀ c ∈ d4 ++ '.' :: (d5 ++ sfxChars sfx), (c != '/') = true := by
    intro c hc
    rcases List.mem_append.mp hc with hc | hc
    · exact isDigitChar_ne_slash (h4c c hc)
    · rcases List.mem_cons.mp hc with hc | hc
      · subst hc; decide
      · rcases List.mem_append.mp hc with hc | hc
        · exact isDigitChar_ne_slash (h5c c hc)
        · cases sfx with
          | none => cases hc
          | some ds =>
            rcases List.mem_cons.mp hc with hc | hc
            · subst hc; decide
            · exact isDigitChar_ne_slash (hsfx.2 c hc)
  have hdropall : (d4 ++ '.' :: (d5 ++ sfxChars sfx)).dropWhile (fun c => c != '/') = [] :=
    dropWhile_of_all hnoslash
  have hrun1 : (d4 ++ '.' :: (d5 ++ sfxChars sfx)).takeWhile isDigitChar = d4 :=
    takeWhile_mid (by decide) d4 _ h4c
  have hdrop4 : (d4 ++ '.' :: (d5 ++ sfxChars sfx)).drop 4 = '.' :: (d5 ++ sfxChars sfx) := by
    rw [← h4]; exact List.drop_left d4 _
  have hrun2 : (d5 ++ sfxChars sfx).takeWhile isDigitChar = d5 := by
    cases sfx with
    | none => simpa [sfxChars] using takeWhile_of_all h5c
    | some ds => exact takeWhile_mid (by decide) d5 _ h5c
  have hdrop5 : (d5 ++ sfxChars sfx).drop d5.length = sfxChars sfx := List.drop_left d5 _
  have htail : parseVersionTail (sfxChars sfx) = some (versionOfSuffix sfx) := by
    cases sfx with
    | none => rfl
    | some ds =>
      have hne : ds.isEmpty = false := by
        cases ds with
        | nil => exact absurd rfl hsfx.1
        | cons a l => rfl
      have hall2 : ds.all isDigitChar = true := List.all_eq_true.mpr hsfx.2
      simp [parseVersionTail, sfxChars, hne, hall2, versionOfSuffix]
  have hlen : (d5.length = 4 || d5.length = 5) = true := by
    rcases h5 with h5 | h5 <;> simp [h5]
  unfold parsePlainCore
  simp only [hdropall, hrun1, h4, if_true, hdrop4, hrun2, hdrop5, htail, hlen]

/-- `parse_plain_arxiv_id` accepts every well-formed bare identifier,
returning the lowercased base and the parsed suffix version. -/
theorem parsePlain_mkBareId {base : List Char} {sfx : Option (List Char)}
    (hbase : IsLegacyBase base ∨ IsModernBase base) (hs : GoodSuffix sfx) :
    parsePlainArxivId (mkBareId base sfx) =
      some (⟨base.map asciiToLower⟩, versionOfSuffix sfx) := by
  have hclasses := mkBareId_char_classes hbase hs
  have hnw : ∀ c ∈ (mkBareId base sfx).data, rustIsWhitespace c = false :=
    fun c hc => (idChar_facts (hclasses c hc)).1
  unfold parsePlainArxivId
  rw [rustTrim_of_no_ws hnw]
  show parsePlainCore (base ++ sfxChars sfx) = _
  rcases hbase with ⟨hd, d7, hbe, hhd, hhdc, h7, h7c⟩ | ⟨d4, d5, hbe, h4, h5, h4c, h5c⟩
  · subst hbe
    rw [List.append_assoc, List.cons_append]
    exact parsePlainCore_legacy hd d7 sfx hhd hhdc h7 h7c hs
  · subst hbe
    rw [List.append_assoc, List.cons_append]
    exact parsePlainCore_modern d4 d5 sfx h4 h5 h4c h5c hs

theorem linkScanVersion_cons (baseId : String) (o : Option String) (t : List ArxivApiLink) :
    linkScanVersion baseId (⟨o⟩ :: t) =
      match o with
      | none => linkScanVersion baseId t
      | some href =>
        match parseArxivInput href with
        | some (b, some v) => if b = baseId then max v 1 else linkScanVersion baseId t
        | _ => linkScanVersion baseId t := rfl

theorem linkScan_skip (baseId : String) :
    ∀ (pre rest : List ArxivApiLink), (∀ l ∈ pre, linkVersionMatch baseId l = false) →
      linkScanVersion baseId (pre ++ rest) = linkScanVersion baseId rest
  | [], _, _ => rfl
  | ⟨o⟩ :: pre, rest, h => by
    have hl := h ⟨o⟩ (List.mem_cons_self _ pre)
    have ih := linkScan_skip baseId pre rest (fun x hx => h x (List.mem_cons_of_mem _ hx))
    rw [List.cons_append, linkScanVersion_cons]
    cases o with
    | none => exact ih
    | some href =>
      have hshow : linkScanVersion baseId (pre ++ rest) = linkScanVersion baseId rest →
          (match parseArxivInput href with
           | some (b, some v) =>
             if b = baseId then max v 1 else linkScanVersion baseId (pre ++ rest)
           | _ => linkScanVersion baseId (pre ++ rest)) = linkScanVersion baseId rest := by
        intro ih2
        match hp : parseArxivInput href with
        | none => exact ih2
        | some (b, none) => exact ih2
        | some (b, some v) =>
          have hdec : decide (b = baseId) = false := by
            have hl2 : (match parseArxivInput href with
              | some (p, some _) => decide (p = baseId)
              | _ => false) = false := hl
            rw [hp] at hl2
            exact hl2
          have hb : b ≠ baseId := of_decide_eq_false hdec
          show (if b = baseId then max v 1 else linkScanVersion baseId (pre ++ rest)) = _
          rw [if_neg hb]
          exact ih2
      exact hshow ih

theorem identityVersion_eq_one {baseId : String} {entryId : Option String}
    (h : ∀ eid b w, entryId = some eid → parseArxivInput eid = some (b, some w) →
      b = baseId → w ≤ 1) :
    identityVersion baseId entryId = 1 := by
  match hid : entryId with
  | none => rfl
  | some eid =>
    show (match parseArxivInput eid with
      | some (b, some v) => if b = baseId then max v 1 else 1
      | _ => 1) = 1
    match hp : parseArxivInput eid with
    | none => rfl
    | some (b, none) => rfl
    | some (b, some v) =>
      show (if b = baseId then max v 1 else 1) = 1
      by_cases hb : b = baseId
      · have hv := h eid b v rfl hp hb
        rw [if_pos hb]
        omega
      · rw [if_neg hb]

/-! ## Claim C1 (version resolution) -/

/-- C1 counterexample: the claim says that when the entry's own identity
field decodes to the same base id with an explicit version marker, the
adopted value is `max(version, 1)` and the link list is not consulted —
which here (identity carrying `v1`) would yield 1.  The code scans the
link list whenever the value so far equals 1 and adopts the link's `v2`,
yielding 2. -/
theorem c1_counterexample :
    parseArxivInput "https://arxiv.org/abs/2301.12345v1" = some ("2301.12345", some 1) ∧
    resolveLatestVersion "2301.12345" (some "https://arxiv.org/abs/2301.12345v1")
      [⟨some "https://arxiv.org/abs/2301.12345v2"⟩] = 2 := by
  constructor <;> decide

/-- C1 amended: version resolution defaults to 1; the identity field is
inspected first and `max(version, 1)` adopted when it decodes to the same
base id with an explicit version; the link list is scanned in order
(adopting `max(version, 1)` from the first link that decodes to the same
base id with an explicit version, and stopping there) whenever the value
adopted so far still equals 1.  The scan conjuncts hypothesize exactly
that condition: every explicit version the identity field carries for
the same base id is at most 1.  This holds vacuously when the identity
field is absent, unparseable, carries no version, or decodes to a
different base id (even with a version), and it holds non-vacuously when
the identity carried an explicit `v0`/`v1` marker for the same base —
so the link scan is proved in all of those cases, not only when the
identity yielded nothing.  An identity version of at least 2 wins
regardless of the links; an entry whose identity tier left the value at
1 and whose links all fail to match resolves to 1; the concrete
identity-`v3` / link-`v2` example resolves to 3. -/
theorem c1_amended_two_tier :
    (∀ (baseId eid : String) (v : Nat) (links : List ArxivApiLink),
      parseArxivInput eid = some (baseId, some v) → 2 ≤ v →
      resolveLatestVersion baseId (some eid) links = v) ∧
    (∀ (baseId : String) (entryId : Option String) (pre : List ArxivApiLink)
        (post : List ArxivApiLink) (href : String) (v : Nat),
      (∀ eid b w, entryId = some eid → parseArxivInput eid = some (b, some w) →
        b = baseId → w ≤ 1) →
      (∀ x ∈ pre, linkVersionMatch baseId x = false) →
      parseArxivInput href = some (baseId, some v) →
      resolveLatestVersion baseId entryId (pre ++ ⟨some href⟩ :: post) = max v 1) ∧
    (∀ (baseId : String) (entryId : Option String) (links : List ArxivApiLink),
      (∀ eid b w, entryId = some eid → parseArxivInput eid = some (b, some w) →
        b = baseId → w ≤ 1) →
      (∀ x ∈ links, linkVersionMatch baseId x = false) →
      resolveLatestVersion baseId entryId links = 1) ∧
    resolveLatestVersion "2301.12345" (some "https://arxiv.org/abs/2301.12345v3")
      [⟨some "https://arxiv.org/abs/2301.12345v2"⟩] = 3 := by
  refine ⟨?_, ?_, ?_, by decide⟩
  · intro baseId eid v links hp hv
    unfold resolveLatestVersion
    have hidv : identityVersion baseId (some eid) = v := by
      show (match parseArxivInput eid with
        | some (b, some v) => if b = baseId then max v 1 else 1
        | _ => 1) = v
      rw [hp]
      show (if baseId = baseId then max v 1 else 1) = v
      rw [if_pos rfl]
      exact Nat.max_eq_left (by omega)
    rw [hidv, if_neg (by omega)]
  · intro baseId entryId pre post href v hid hpre hp
    unfold resolveLatestVersion
    rw [identityVersion_eq_one hid, if_pos rfl,
      linkScan_skip baseId pre (⟨some href⟩ :: post) hpre]
    show (match parseArxivInput href with
      | some (b, some v) => if b = baseId then max v 1 else linkScanVersion baseId post
      | _ => linkScanVersion baseId post) = max v 1
    rw [hp]
    show (if baseId = baseId then max v 1 else linkScanVersion baseId post) = max v 1
    rw [if_pos rfl]
  · intro baseId entryId links hid hlinks
    unfold resolveLatestVersion
    rw [identityVersion_eq_one hid, if_pos rfl]
    have hskip := linkScan_skip baseId links [] hlinks
    rw [List.append_nil] at hskip
    rw [hskip]
    rfl

/-- C1 amended witness at concrete inputs: identity `v3` beats link `v2`;
the link scan runs when the identity field is absent, when it carried an
explicit `v1` marker for the same base, and when it decoded to a
different base id with a version; and an unparseable identity with no
matching link resolves to 1. -/
theorem c1_amended_witness :
    resolveLatestVersion "2301.12345" (some "https://arxiv.org/abs/2301.12345v3")
      [⟨some "https://arxiv.org/abs/2301.12345v2"⟩] = 3 ∧
    resolveLatestVersion "2301.12345" none
      [⟨none⟩, ⟨some "https://arxiv.org/abs/2301.12345v2"⟩] = 2 ∧
    resolveLatestVersion "2301.12345" (some "https://arxiv.org/abs/2301.12345v1")
      [⟨none⟩, ⟨some "https://arxiv.org/abs/2301.12345v2"⟩] = 2 ∧
    resolveLatestVersion "2301.12345" (some "https://arxiv.org/abs/9999.99999v5")
      [⟨some "https://arxiv.org/abs/2301.12345v2"⟩] = 2 ∧
    resolveLatestVersion "2301.12345" (some "oops") [⟨some "nope"⟩] = 1 := by
  refine ⟨c1_amended_two_tier.1 "2301.12345" "https://arxiv.org/abs/2301.12345v3" 3
    [⟨some "https://arxiv.org/abs/2301.12345v2"⟩] (by decide) (by decide),
    ?_, ?_, ?_, ?_⟩
  · have h := c1_amended_two_tier.2.1 "2301.12345" none [⟨none⟩] []
      "https://arxiv.org/abs/2301.12345v2" 2
      (by intro eid b w heq; cases heq) (by decide) (by decide)
    simpa using h
  · have h := c1_amended_two_tier.2.1 "2301.12345"
      (some "https://arxiv.org/abs/2301.12345v1") [⟨none⟩] []
      "https://arxiv.org/abs/2301.12345v2" 2
      (by
        intro eid b w heq hpp hb
        injection heq with h2
        subst h2
        rw [show parseArxivInput "https://arxiv.org/abs/2301.12345v1"
          = some ("2301.12345", some 1) from by decide] at hpp
        injection hpp with h3
        injection h3 with hb2 hw
        injection hw with hw2
        omega)
      (by decide) (by decide)
    simpa using h
  · have h := c1_amended_two_tier.2.1 "2301.12345"
      (some "https://arxiv.org/abs/9999.99999v5") [] []
      "https://arxiv.org/abs/2301.12345v2" 2
      (by
        intro eid b w heq hpp hb
        injection heq with h2
        subst h2
        rw [show parseArxivInput "https://arxiv.org/abs/9999.99999v5"
          = some ("9999.99999", some 5) from by decide] at hpp
        injection hpp with h3
        injection h3 with hb2 hw
        exact absurd (hb2.trans hb) (by decide))
      (by decide) (by decide)
    simpa using h
  · exact c1_amended_two_tier.2.2.1 "2301.12345" (some "oops") [⟨some "nope"⟩]
      (by
        intro eid b w heq hpp hb
        injection heq with h2
        subst h2
        rw [show parseArxivInput "oops" = none from by decide] at hpp
        cases hpp)
      (by decide)

/-! ## Claim C2 (parsed versions are positive) -/

/-- C2 counterexample: the identifier `2301.12345v0` carries an explicit
`vN` suffix, yet the parser returns version 0 — not a positive integer —
and the orchestrator would use 0 unchanged as the effective version
(`requested_version.unwrap_or(latest.max(1))` clamps only the fallback
side). -/
theorem c2_counterexample :
    parsePlainArxivId "2301.12345v0" = some ("2301.12345", some 0) ∧
    parseArxivInput "2301.12345v0" = some ("2301.12345", some 0) ∧
    effectiveVersion (some 0) 1 = 0 := by
  refine ⟨by decide, by decide, rfl⟩

/-- C2 amended: whenever the parser accepts an input with an explicit
`vN` suffix whose digits denote a nonzero value (fitting in `u32`), the
version it returns is exactly that value — a positive integer — and the
orchestrator adopts it unchanged as the effective version.  The suffix
`v0` (or `v00`, …) is the sole exception: there the parser returns 0 and
the effective version is 0. -/
theorem c2_amended_version_positive {base ds : List Char} (latest : Nat)
    (hbase : IsLegacyBase base ∨ IsModernBase base)
    (hds : GoodSuffix (some ds)) (hnz : 1 ≤ digitsToNat ds)
    (hfit : digitsToNat ds ≤ 4294967295) :
    parsePlainArxivId (mkBareId base (some ds)) =
      some (⟨base.map asciiToLower⟩, some (digitsToNat ds)) ∧
    1 ≤ digitsToNat ds ∧
    effectiveVersion (some (digitsToNat ds)) latest = digitsToNat ds := by
  refine ⟨?_, hnz, rfl⟩
  rw [parsePlain_mkBareId hbase hds]
  simp [versionOfSuffix, parseU32, hfit]

/-- C2 amended witness at `2301.12345v3`. -/
theorem c2_amended_witness :
    parsePlainArxivId "2301.12345v3" = some ("2301.12345", some 3) ∧
    1 ≤ 3 ∧ effectiveVersion (some 3) 1 = 3 :=
  @c2_amended_version_positive "2301.12345".data ['3'] 1
    (Or.inr ⟨['2', '3', '0', '1'], ['1', '2', '3', '4', '5'], by decide, by decide,
      by decide, by decide, by decide⟩)
    ⟨by decide, by decide⟩ (by decide) (by decide)

/-! ## Claim C4 (invalid conflict policy) -/

/-- C4: for every environment, input, target directory and conflict
policy other than `"skip"`, the import terminates with a `Skipped`
outcome with reason `invalid_conflict_policy`, an empty effect trace
(no network or filesystem I/O), and no metadata attached. -/
theorem c4_invalid_policy (env : Env) (input targetDir policy : String)
    (h : policy ≠ "skip") :
    importArxivPaper env input targetDir policy =
      (skippedResult "invalid_conflict_policy" none, []) := by
  unfold importArxivPaper
  rw [if_pos h]

/-- C4 witness with the `"overwrite"` policy. -/
theorem c4_witness :
    ("overwrite" ≠ "skip") ∧
    importArxivPaper
      { targetExists := true, createDirOk := true, targetIsDir := true,
        clientBuildOk := true, apiSendOk := true, apiStatus := 200, apiTextOk := true,
        feedParsed := none, pdfExists := false, metaExists := false,
        pdfSendOk := true, pdfStatus := 200, pdfBytesOk := true, pdfByteLen := 0,
        pdfWriteOk := true, serializeOk := true, metaWriteOk := true }
      "1706.03762" "/papers" "overwrite" =
      (skippedResult "invalid_conflict_policy" none, []) :=
  ⟨by decide, c4_invalid_policy _ "1706.03762" "/papers" "overwrite" (by decide)⟩

/-! ## Claim C6 (parser wrapping invariance) -/

/-- C8: the parser returns `None` for every input that is empty after
trimming; for every input that parses as a URL whose host is missing or
is not (case-insensitively) `arxiv.org` / `www.arxiv.org`; and for every
URL whose slash-trimmed path starts with neither `abs/` nor `pdf/` —
no best-effort extraction happens on such inputs. -/
theorem c8_rejections :
    (∀ s : String, rustTrim s = "" → parseArxivInput s = none) ∧
    (∀ (s : String) (u : ModelUrl), urlParse (rustTrim s) = some u →
      (∀ h, u.host = some h →
        toLowerStr h ≠ "arxiv.org" ∧ toLowerStr h ≠ "www.arxiv.org") →
      parseArxivInput s = none) ∧
    (∀ (s : String) (u : ModelUrl), urlParse (rustTrim s) = some u →
      stripPre "abs/".data (trimMatchesSlash u.path) = none →
      stripPre "pdf/".data (trimMatchesSlash u.path) = none →
      parseArxivInput s = none) := by
  refine ⟨?_, ?_, ?_⟩
  · intro s h
    unfold parseArxivInput
    rw [h]
    rfl
  · intro s u hu hh
    unfold parseArxivInput
    by_cases hts : rustTrim s = ""
    · rw [hts]; rfl
    · rw [if_neg hts, hu]
      obtain ⟨ho, hp⟩ := u
      cases ho with
      | none => rfl
      | some hostRaw =>
        have ⟨h1, h2⟩ := hh hostRaw rfl
        have hcond : (toLowerStr hostRaw != "arxiv.org" &&
            toLowerStr hostRaw != "www.arxiv.org") = true := by
          simp [bne_iff_ne, h1, h2]
        show (if (toLowerStr hostRaw != "arxiv.org" &&
            toLowerStr hostRaw != "www.arxiv.org") = true then none
          else match stripPre "abs/".data (trimMatchesSlash hp) with
            | some candidate => parsePlainArxivId ⟨candidate⟩
            | none =>
              match stripPre "pdf/".data (trimMatchesSlash hp) with
              | some candidate => parsePlainArxivId ⟨stripSufPdf candidate⟩
              | none => none) = none
        rw [if_pos hcond]
  · intro s u hu habs hpdf
    unfold parseArxivInput
    by_cases hts : rustTrim s = ""
    · rw [hts]; rfl
    · rw [if_neg hts, hu]
      obtain ⟨ho, hp⟩ := u
      cases ho with
      | none => rfl
      | some hostRaw =>
        show (if (toLowerStr hostRaw != "arxiv.org" &&
            toLowerStr hostRaw != "www.arxiv.org") = true then none
          else match stripPre "abs/".data (trimMatchesSlash hp) with
            | some candidate => parsePlainArxivId ⟨candidate⟩
            | none =>
              match stripPre "pdf/".data (trimMatchesSlash hp) with
              | some candidate => parsePlainArxivId ⟨stripSufPdf candidate⟩
              | none => none) = none
        by_cases hcond : (toLowerStr hostRaw != "arxiv.org" &&
            toLowerStr hostRaw != "www.arxiv.org") = true
        · rw [if_pos hcond]
        · rw [if_neg hcond]
          simp only at habs hpdf
          rw [habs, hpdf]

/-- C8 witness: an all-whitespace input, a foreign host, and an
arxiv.org URL with an unknown path shape are all rejected. -/
theorem c8_witness :
    parseArxivInput "   " = none ∧
    parseArxivInput "https://example.com/abs/2301.12345" = none ∧
    parseArxivInput "https://arxiv.org/foo/2301.12345" = none := by
  refine ⟨c8_rejections.1 "   " (by decide), ?_, ?_⟩
  · exact c8_rejections.2.1 "https://example.com/abs/2301.12345"
      ⟨some "example.com", "/abs/2301.12345"⟩ (by decide)
      (by
        intro h hh
        injection hh with h2
        subst h2
        exact ⟨by decide, by decide⟩)
  · exact c8_rejections.2.2 "https://arxiv.org/foo/2301.12345"
      ⟨some "arxiv.org", "/foo/2301.12345"⟩ (by decide) (by decide) (by decide)

/-! ## Sanitizer lemmas -/

theorem mem_intercalate_char {x : Char} : ∀ (ls : List (List Char)) (c : Char),
    c ∈ List.intercalate [x] ls → c = x ∨ ∃ t ∈ ls, c ∈ t
  | [], c, h => by simp [List.intercalate] at h
  | [l], c, h => by
    rw [show List.intercalate [x] [l] = l from by simp [List.intercalate]] at h
    exact Or.inr ⟨l, by simp, h⟩
  | l :: l2 :: ls, c, h => by
    rw [show List.intercalate [x] (l :: l2 :: ls) = l ++ x :: List.intercalate [x] (l2 :: ls)
      from by simp [List.intercalate, List.intersperse_cons_cons]] at h
    rcases List.mem_append.mp h with h | h
    · exact Or.inr ⟨l, by simp, h⟩
    · rcases List.mem_cons.mp h with h | h
      · exact Or.inl h
      · rcases mem_intercalate_char (l2 :: ls) c h with h | ⟨t, ht, hc⟩
        · exact Or.inl h
        · exact Or.inr ⟨t, List.mem_cons_of_mem _ ht, hc⟩

theorem splitWsAux_not_ws : ∀ (cs acc : List Char),
    (∀ c ∈ acc, rustIsWhitespace c = false) →
    ∀ t ∈ splitWsAux cs acc, ∀ c ∈ t, rustIsWhitespace c = false
  | [], acc, hacc, t, ht, c, hc => by
    unfold splitWsAux at ht
    split at ht
    · cases ht
    · rcases List.mem_singleton.mp ht with rfl
      exact hacc c (List.mem_reverse.mp hc)
  | d :: cs, acc, hacc, t, ht, c, hc => by
    unfold splitWsAux at ht
    split at ht
    · split at ht
      · exact splitWsAux_not_ws cs [] (by simp) t ht c hc
      · rcases List.mem_cons.mp ht with rfl | ht
        · exact hacc c (List.mem_reverse.mp hc)
        · exact splitWsAux_not_ws cs [] (by simp) t ht c hc
    · rename_i hd
      refine splitWsAux_not_ws cs (d :: acc) ?_ t ht c hc
      intro e he
      rcases List.mem_cons.mp he with rfl | he
      · simpa using hd
      · exact hacc e he

theorem splitWsAux_all_not_ws : ∀ (cs acc : List Char),
    (∀ c ∈ cs, rustIsWhitespace c = false) → (acc.isEmpty = false ∨ cs ≠ []) →
    splitWsAux cs acc = [acc.reverse ++ cs]
  | [], acc, _, hne => by
    unfold splitWsAux
    rcases hne with hne | hne
    · rw [hne]
      simp
    · exact absurd rfl hne
  | c :: cs, acc, h, _ => by
    unfold splitWsAux
    have hc : rustIsWhitespace c = false := h c (List.mem_cons_self _ _)
    rw [hc]
    simp only [Bool.false_eq_true, if_false]
    rw [splitWsAux_all_not_ws cs (c :: acc) (fun e he => h e (List.mem_cons_of_mem _ he))
      (Or.inl rfl)]
    simp

theorem splitWs_single {cs : List Char} (h1 : ∀ c ∈ cs, rustIsWhitespace c = false)
    (h2 : cs ≠ []) : splitWs cs = [cs] := by
  unfold splitWs
  rw [splitWsAux_all_not_ws cs [] h1 (Or.inr h2)]
  rfl

theorem map_id_of_mem {f : Char → Char} : ∀ {l : List Char}, (∀ c ∈ l, f c = c) →
    l.map f = l
  | [], _ => rfl
  | c :: l, h => by
    rw [List.map_cons, h c (List.mem_cons_self _ _),
      map_id_of_mem (fun e he => h e (List.mem_cons_of_mem _ he))]

theorem truncBytes_mem : ∀ (cs : List Char) (b : Nat), ∀ c ∈ truncBytes cs b, c ∈ cs
  | [], _, c, hc => by cases hc
  | d :: cs, b, c, hc => by
    unfold truncBytes at hc
    split at hc
    · rcases List.mem_cons.mp hc with rfl | hc
      · exact List.mem_cons_self _ _
      · exact List.mem_cons_of_mem _ (truncBytes_mem cs _ c hc)
    · cases hc

theorem truncBytes_length_le : ∀ (cs : List Char) (b : Nat),
    (truncBytes cs b).length ≤ cs.length
  | [], _ => Nat.le_refl _
  | d :: cs, b => by
    unfold truncBytes
    split
    · simpa using truncBytes_length_le cs (b - utf8Len d)
    · simp

theorem truncBytes_sum_le : ∀ (cs : List Char) (b : Nat), utf8Sum (truncBytes cs b) ≤ b
  | [], b => by simp [truncBytes, utf8Sum]
  | d :: cs, b => by
    unfold truncBytes
    split
    · rename_i hle
      have ih := truncBytes_sum_le cs (b - utf8Len d)
      show utf8Len d + utf8Sum (truncBytes cs (b - utf8Len d)) ≤ b
      omega
    · simp [utf8Sum]

theorem truncBytes_of_sum_le : ∀ (cs : List Char) (b : Nat), utf8Sum cs ≤ b →
    truncBytes cs b = cs
  | [], _, _ => rfl
  | d :: cs, b, h => by
    unfold truncBytes
    have hsum : utf8Len d + utf8Sum cs ≤ b := h
    rw [if_pos (by omega), truncBytes_of_sum_le cs (b - utf8Len d) (by omega)]

theorem utf8Len_le_four (c : Char) : utf8Len c ≤ 4 := by
  unfold utf8Len
  split
  · omega
  split
  · omega
  split
  · omega
  · omega

theorem truncBytes_eq_or_bound : ∀ (cs : List Char) (b : Nat),
    truncBytes cs b = cs ∨ b ≤ utf8Sum (truncBytes cs b) + 3
  | [], _ => Or.inl rfl
  | d :: cs, b => by
    unfold truncBytes
    by_cases hle : utf8Len d ≤ b
    · rw [if_pos hle]
      rcases truncBytes_eq_or_bound cs (b - utf8Len d) with h | h
      · exact Or.inl (by rw [h])
      · right
        have hs : utf8Sum (d :: truncBytes cs (b - utf8Len d)) =
            utf8Len d + utf8Sum (truncBytes cs (b - utf8Len d)) := rfl
        omega
    · rw [if_neg hle]
      right
      have h4 := utf8Len_le_four d
      have h0 : utf8Sum ([] : List Char) = 0 := rfl
      omega

theorem utf8Sum_all_dots : ∀ {r : List Char}, (∀ c ∈ r, c = '.') → utf8Sum r = r.length
  | [], _ => rfl
  | c :: r, h => by
    have hc := h c (List.mem_cons_self _ _)
    subst hc
    have ih := utf8Sum_all_dots (fun e he => h e (List.mem_cons_of_mem _ he))
    show utf8Len '.' + utf8Sum r = r.length + 1
    rw [show utf8Len '.' = 1 from rfl, ih]
    omega

theorem take96_length_le (l : List Char) : (l.take 96).length ≤ 96 := by
  simp [List.length_take]

theorem joined_take_not_ws (u : String) :
    ∀ c ∈ (List.intercalate ['_'] (splitWs u.data)).take 96, rustIsWhitespace c = false := by
  intro c hc
  have hc2 : c ∈ List.intercalate ['_'] (splitWs u.data) := List.take_subset _ _ hc
  rcases mem_intercalate_char _ c hc2 with rfl | ⟨tok, htok, hctok⟩
  · decide
  · exact splitWsAux_not_ws u.data [] (by simp) tok htok c hctok

/-- Structure of a nonempty `sanitize` result on a short whitespace-free
input: nonempty, still short, free of whitespace / illegal / control
characters, not all dots, and within the 255-byte bound. -/
theorem sanitizeCrate_props (s : String) (hlen : s.data.length ≤ 96)
    (hws : ∀ c ∈ s.data, rustIsWhitespace c = false) (hne : ¬sanitizeCrate s = "") :
    (sanitizeCrate s).data ≠ [] ∧ (sanitizeCrate s).data.length ≤ 96 ∧
    (∀ c ∈ (sanitizeCrate s).data,
      rustIsWhitespace c = false ∧ illegalChar c = false ∧ controlChar c = false) ∧
    ¬(∀ c ∈ (sanitizeCrate s).data, c = '.') ∧
    utf8Sum (sanitizeCrate s).data ≤ 255 := by
  simp only [sanitizeCrate] at hne ⊢
  split at hne
  · exact absurd rfl hne
  · rename_i hdots
    rw [if_neg hdots]
    have hrne : truncBytes (s.data.filter (fun c => !illegalChar c && !controlChar c)) 255
        ≠ [] := by
      intro h0
      apply hne
      show (⟨truncBytes (s.data.filter (fun c => !illegalChar c && !controlChar c)) 255⟩ :
        String) = ""
      rw [h0]
    refine ⟨hrne, ?_, ?_, ?_, truncBytes_sum_le _ _⟩
    · calc (truncBytes (s.data.filter (fun c => !illegalChar c && !controlChar c))
          255).length
          ≤ (s.data.filter (fun c => !illegalChar c && !controlChar c)).length :=
            truncBytes_length_le _ _
        _ ≤ s.data.length := List.length_filter_le _ _
        _ ≤ 96 := hlen
    · intro c hc
      have hck := truncBytes_mem _ _ c hc
      have hfp : (!illegalChar c && !controlChar c) = true :=
        List.of_mem_filter (p := fun c => !illegalChar c && !controlChar c) hck
      have hcs : c ∈ s.data :=
        List.mem_of_mem_filter (p := fun c => !illegalChar c && !controlChar c) hck
      simp only [Bool.and_eq_true, Bool.not_eq_true'] at hfp
      exact ⟨hws c hcs, hfp.1, hfp.2⟩
    · intro hall
      have hsum := utf8Sum_all_dots hall
      have hrl : (truncBytes (s.data.filter (fun c => !illegalChar c && !controlChar c))
          255).length ≤ 96 := by
        calc (truncBytes (s.data.filter (fun c => !illegalChar c && !controlChar c))
            255).length
            ≤ (s.data.filter (fun c => !illegalChar c && !controlChar c)).length :=
              truncBytes_length_le _ _
          _ ≤ s.data.length := List.length_filter_le _ _
          _ ≤ 96 := hlen
      rcases truncBytes_eq_or_bound
          (s.data.filter (fun c => !illegalChar c && !controlChar c)) 255 with heq | hbd
      · apply hdots
        rw [← heq]
        have h1 : (truncBytes (s.data.filter (fun c => !illegalChar c && !controlChar c))
            255).isEmpty = false := by
          cases h2 : truncBytes (s.data.filter (fun c => !illegalChar c && !controlChar c))
              255 with
          | nil => exact absurd h2 hrne
          | cons a l => rfl
        rw [h1]
        simp only [Bool.not_false, Bool.true_and, List.all_eq_true, decide_eq_true_eq]
        exact hall
      · omega

/-- The sanitizer output is either the fallback `"paper"` or a string
with the structural properties of `sanitizeCrate_props`. -/
theorem sanitize_output (t : String) :
    sanitizeTitleForFilename t = "paper" ∨
    ((sanitizeTitleForFilename t).data ≠ [] ∧
      (sanitizeTitleForFilename t).data.length ≤ 96 ∧
      (∀ c ∈ (sanitizeTitleForFilename t).data,
        rustIsWhitespace c = false ∧ illegalChar c = false ∧ controlChar c = false) ∧
      ¬(∀ c ∈ (sanitizeTitleForFilename t).data, c = '.') ∧
      utf8Sum (sanitizeTitleForFilename t).data ≤ 255) := by
  simp only [sanitizeTitleForFilename]
  split
  · exact Or.inl rfl
  · rename_i hne
    exact Or.inr (sanitizeCrate_props _ (take96_length_le _) (joined_take_not_ws _) hne)

/-- Any string with the structural output properties is a fixed point of
the sanitizer. -/
theorem sanitizeTitle_fixed (o : String) (h1 : o.data ≠ []) (h2 : o.data.length ≤ 96)
    (h3 : ∀ c ∈ o.data,
      rustIsWhitespace c = false ∧ illegalChar c = false ∧ controlChar c = false)
    (h4 : ¬(∀ c ∈ o.data, c = '.')) (h5 : utf8Sum o.data ≤ 255) :
    sanitizeTitleForFilename o = o := by
  have hsp : splitWs o.data = [o.data] := splitWs_single (fun c hc => (h3 c hc).1) h1
  have hone : ¬(o = "") := by
    intro he
    rw [he] at h1
    exact h1 rfl
  have hcompact : compactText o = o := by
    unfold compactText
    rw [hsp, show List.intercalate [' '] [o.data] = o.data from by simp [List.intercalate]]
  have hslash : ∀ c ∈ o.data, c ≠ '/' ∧ c ≠ '\\' := by
    intro c hc
    have hi := (h3 c hc).2.1
    constructor
    · intro he
      rw [he] at hi
      exact absurd hi (by decide)
    · intro he
      rw [he] at hi
      exact absurd hi (by decide)
  have hrep1 : replaceChar o '/' ' ' = o := by
    unfold replaceChar
    rw [map_id_of_mem (fun c hc => by rw [if_neg (hslash c hc).1])]
  have hrep2 : replaceChar o '\\' ' ' = o := by
    unfold replaceChar
    rw [map_id_of_mem (fun c hc => by rw [if_neg (hslash c hc).2])]
  have hfil : o.data.filter (fun c => !illegalChar c && !controlChar c) = o.data :=
    List.filter_eq_self.mpr (fun c hc => by
      simp only [Bool.and_eq_true, Bool.not_eq_true']
      exact ⟨(h3 c hc).2.1, (h3 c hc).2.2⟩)
  have hsc : sanitizeCrate o = o := by
    simp only [sanitizeCrate]
    rw [hfil]
    split
    · rename_i hcond
      simp only [Bool.and_eq_true, Bool.not_eq_true', List.all_eq_true,
        decide_eq_true_eq] at hcond
      exact absurd hcond.2 h4
    · rw [truncBytes_of_sum_le _ _ h5]
  simp only [sanitizeTitleForFilename]
  rw [hcompact, hrep1, hrep2, hsp,
    show List.intercalate ['_'] [o.data] = o.data from by simp [List.intercalate]]
  have htk : (⟨List.take 96 o.data⟩ : String) = o := by
    rw [List.take_of_length_le h2]
  rw [htk, hsc, if_neg hone]

/-! ## Claim C7 (sanitizer guarantees) -/

/-- C7: for every title, the sanitizer output is non-empty, at most 96
characters long, contains no path separators, and is a fixed point of
re-sanitization; an all-punctuation title falls back to the literal
`"paper"`. -/
theorem c7_sanitizer :
    (∀ t : String,
      sanitizeTitleForFilename t ≠ "" ∧
      (sanitizeTitleForFilename t).data.length ≤ 96 ∧
      '/' ∉ (sanitizeTitleForFilename t).data ∧
      '\\' ∉ (sanitizeTitleForFilename t).data ∧
      sanitizeTitleForFilename (sanitizeTitleForFilename t) = sanitizeTitleForFilename t) ∧
    sanitizeTitleForFilename "???" = "paper" := by
  refine ⟨?_, by decide⟩
  intro t
  rcases sanitize_output t with h | ⟨h1, h2, h3, h4, h5⟩
  · rw [h]
    exact ⟨by decide, by decide, by decide, by decide, by decide⟩
  · refine ⟨?_, h2, ?_, ?_, sanitizeTitle_fixed _ h1 h2 h3 h4 h5⟩
    · intro he
      rw [he] at h1
      exact h1 rfl
    · intro hm
      have := (h3 _ hm).2.1
      exact absurd this (by decide)
    · intro hm
      have := (h3 _ hm).2.1
      exact absurd this (by decide)

/-! ## Orchestrator lemmas -/

/-- Every outcome of the download phase carries the resolved metadata. -/
theorem importDownloadPhase_paper (env : Env) (paper : ArxivPaperMetadata)
    (pdfPath metadataPath : String) :
    (importDownloadPhase env paper pdfPath metadataPath).1.paper = some paper := by
  simp only [importDownloadPhase]
  split_ifs <;> rfl

/-- The download phase never issues a file removal. -/
theorem importDownloadPhase_no_remove (env : Env) (paper : ArxivPaperMetadata)
    (pdfPath metadataPath : String) :
    ∀ p, FsEffect.removeFile p ∉ (importDownloadPhase env paper pdfPath metadataPath).2 := by
  intro p
  simp only [importDownloadPhase]
  split_ifs <;> simp

/-- Reduction of `import_arxiv_paper` under the hypotheses that carry the
run past metadata resolution (policy `"skip"`, parseable input, usable
target directory, successful client construction, metadata fetch and
feed decode with at least one entry). -/
theorem importArxiv_past_meta (env : Env) (input targetDir b : String) (r : Option Nat)
    (feed : ArxivApiFeed) (e : ArxivApiEntry) (rest : List ArxivApiEntry)
    (hin : parseArxivInput input = some (b, r))
    (hdir : ¬rustTrim targetDir = "")
    (hcd : ¬(!env.targetExists && !env.createDirOk) = true)
    (hisdir : env.targetIsDir = true)
    (hclient : env.clientBuildOk = true)
    (hsend : env.apiSendOk = true)
    (hstatus : httpSuccess env.apiStatus = true)
    (htext : env.apiTextOk = true)
    (hfeed : env.feedParsed = some feed)
    (hentries : feed.entry = e :: rest) :
    importArxivPaper env input targetDir "skip" =
      (if env.pdfExists then
        ({ status := "skipped", reason := some "file_exists",
           pdf_path := some (joinPath targetDir (stemOfPaper (resolvePaper b r e) ++ ".pdf")),
           pdf_size := none,
           metadata_path := if env.metaExists then
             some (joinPath targetDir (stemOfPaper (resolvePaper b r e) ++ ".metadata.json"))
           else none,
           paper := some (resolvePaper b r e) },
         (if env.targetExists then [] else [FsEffect.createDir targetDir]) ++
           [FsEffect.netGet ("https://export.arxiv.org/api/query?id_list=" ++ b)])
      else
        ((importDownloadPhase env (resolvePaper b r e)
            (joinPath targetDir (stemOfPaper (resolvePaper b r e) ++ ".pdf"))
            (joinPath targetDir (stemOfPaper (resolvePaper b r e) ++ ".metadata.json"))).1,
         ((if env.targetExists then [] else [FsEffect.createDir targetDir]) ++
           [FsEffect.netGet ("https://export.arxiv.org/api/query?id_list=" ++ b)]) ++
           (importDownloadPhase env (resolvePaper b r e)
            (joinPath targetDir (stemOfPaper (resolvePaper b r e) ++ ".pdf"))
            (joinPath targetDir (stemOfPaper (resolvePaper b r e) ++ ".metadata.json"))).2)) := by
  simp only [importArxivPaper, hin, hdir, hcd, hisdir, hclient, hsend, hstatus, htext,
    hfeed, hentries]
  simp

/-- The download phase never reports `file_exists`. -/
theorem importDownloadPhase_reason (env : Env) (paper : ArxivPaperMetadata)
    (pdfPath metadataPath : String) :
    (importDownloadPhase env paper pdfPath metadataPath).1.reason ≠ some "file_exists" := by
  simp only [importDownloadPhase]
  split_ifs <;> simp [skippedResult]

/-- A path present in the file set stays present under a trace free of
removals. -/
theorem runFs_preserve : ∀ (ops : List FsEffect) (fs : List String) (p : String),
    p ∈ fs → (∀ q, FsEffect.removeFile q ∉ ops) → p ∈ runFs fs ops
  | [], _, _, hp, _ => hp
  | op :: ops, fs, p, hp, hrem => by
    have hrem2 : ∀ q, FsEffect.removeFile q ∉ ops :=
      fun q hq => hrem q (List.mem_cons_of_mem _ hq)
    show p ∈ runFs (applyFs fs op) ops
    refine runFs_preserve ops _ p ?_ hrem2
    match op with
    | FsEffect.netGet u => exact hp
    | FsEffect.createDir d => exact hp
    | FsEffect.writeFile q =>
      show p ∈ (if q ∈ fs then fs else q :: fs)
      split
      · exact hp
      · exact List.mem_cons_of_mem _ hp
    | FsEffect.removeFile q => exact absurd (List.mem_cons_self _ _) (hrem q)

/-- A written path is present after running a removal-free trace. -/
theorem runFs_mem_write : ∀ (ops : List FsEffect) (fs : List String) (p : String),
    FsEffect.writeFile p ∈ ops → (∀ q, FsEffect.removeFile q ∉ ops) → p ∈ runFs fs ops
  | [], _, _, hw, _ => by cases hw
  | op :: ops, fs, p, hw, hrem => by
    have hrem2 : ∀ q, FsEffect.removeFile q ∉ ops :=
      fun q hq => hrem q (List.mem_cons_of_mem _ hq)
    show p ∈ runFs (applyFs fs op) ops
    rcases List.mem_cons.mp hw with heq | hw
    · subst heq
      refine runFs_preserve ops _ p ?_ hrem2
      show p ∈ (if p ∈ fs then fs else p :: fs)
      split
      · assumption
      · exact List.mem_cons_self _ _
    · exact runFs_mem_write ops _ p hw hrem2

/-- Master case analysis of `import_arxiv_paper`: a skipped outcome
carries metadata exactly when metadata resolution succeeded, the
`file_exists` reason occurs only when the PDF path existed, and the
carried metadata is the resolved record of the head feed entry. -/
theorem importArxiv_skipped_paper (env : Env) (input targetDir conflictPolicy : String) :
    ((importArxivPaper env input targetDir conflictPolicy).1.status = "skipped" →
      (importArxivPaper env input targetDir conflictPolicy).1.paper.isSome =
        metadataResolved env input targetDir conflictPolicy) ∧
    ((importArxivPaper env input targetDir conflictPolicy).1.reason = some "file_exists" →
      env.pdfExists = true) ∧
    (∀ (b : String) (r : Option Nat) (e : ArxivApiEntry),
      parseArxivInput input = some (b, r) → resolvedEntry env = some e →
      (importArxivPaper env input targetDir conflictPolicy).1.status = "skipped" →
      metadataResolved env input targetDir conflictPolicy = true →
      (importArxivPaper env input targetDir conflictPolicy).1.paper =
        some (resolvePaper b r e)) := by
  by_cases hpol : conflictPolicy = "skip"
  case neg =>
    have himp : importArxivPaper env input targetDir conflictPolicy =
        (skippedResult "invalid_conflict_policy" none, []) := by
      unfold importArxivPaper
      rw [if_pos hpol]
    rw [himp]
    refine ⟨?_, ?_, ?_⟩ <;> simp [skippedResult, metadataResolved, hpol]
  case pos =>
  subst hpol
  match hin : parseArxivInput input with
  | none =>
    have himp : (importArxivPaper env input targetDir "skip").1 =
        skippedResult "invalid_link" none := by
      simp [importArxivPaper, hin]
    rw [himp]
    refine ⟨?_, ?_, ?_⟩ <;> simp [skippedResult, metadataResolved, hin]
  | some (b0, r0) =>
  by_cases hdir : rustTrim targetDir = ""
  case pos =>
    have himp : (importArxivPaper env input targetDir "skip").1 =
        skippedResult "write_failed" none := by
      simp [importArxivPaper, hin, hdir]
    rw [himp]
    refine ⟨?_, ?_, ?_⟩ <;> simp [skippedResult, metadataResolved, hdir]
  case neg =>
  by_cases hcd : (!env.targetExists && !env.createDirOk) = true
  case pos =>
    have hor : (env.targetExists || env.createDirOk) = false := by
      revert hcd
      cases env.targetExists <;> cases env.createDirOk <;> simp
    have himp : (importArxivPaper env input targetDir "skip").1 =
        skippedResult "write_failed" none := by
      simp [importArxivPaper, hin, hdir, hcd]
    rw [himp]
    refine ⟨?_, ?_, ?_⟩ <;> simp [skippedResult, metadataResolved, hor]
  case neg =>
  have hor : (env.targetExists || env.createDirOk) = true := by
    revert hcd
    cases env.targetExists <;> cases env.createDirOk <;> simp
  by_cases hisdir : env.targetIsDir = true
  case neg =>
    have hd2 : env.targetIsDir = false := by
      revert hisdir
      cases env.targetIsDir <;> simp
    have himp : (importArxivPaper env input targetDir "skip").1 =
        skippedResult "write_failed" none := by
      simp [importArxivPaper, hin, hdir, hcd, hd2]
    rw [himp]
    refine ⟨?_, ?_, ?_⟩ <;> simp [skippedResult, metadataResolved, hd2]
  case pos =>
  by_cases hclient : env.clientBuildOk = true
  case neg =>
    have hd2 : env.clientBuildOk = false := by
      revert hclient
      cases env.clientBuildOk <;> simp
    have himp : (importArxivPaper env input targetDir "skip").1 =
        skippedResult "network_error" none := by
      simp [importArxivPaper, hin, hdir, hcd, hisdir, hd2]
    rw [himp]
    refine ⟨?_, ?_, ?_⟩ <;> simp [skippedResult, metadataResolved, hd2]
  case pos =>
  by_cases hsend : env.apiSendOk = true
  case neg =>
    have hd2 : env.apiSendOk = false := by
      revert hsend
      cases env.apiSendOk <;> simp
    have himp : (importArxivPaper env input targetDir "skip").1 =
        skippedResult "network_error" none := by
      simp [importArxivPaper, hin, hdir, hcd, hisdir, hclient, hd2]
    rw [himp]
    refine ⟨?_, ?_, ?_⟩ <;> simp [skippedResult, metadataResolved, hd2]
  case pos =>
  by_cases hstatus : httpSuccess env.apiStatus = true
  case neg =>
    have hd2 : httpSuccess env.apiStatus = false := by
      revert hstatus
      cases httpSuccess env.apiStatus <;> simp
    have himp : (importArxivPaper env input targetDir "skip").1 =
        skippedResult "network_error" none := by
      simp [importArxivPaper, hin, hdir, hcd, hisdir, hclient, hsend, hd2]
    rw [himp]
    refine ⟨?_, ?_, ?_⟩ <;> simp [skippedResult, metadataResolved, hd2]
  case pos =>
  by_cases htext : env.apiTextOk = true
  case neg =>
    have hd2 : env.apiTextOk = false := by
      revert htext
      cases env.apiTextOk <;> simp
    have himp : (importArxivPaper env input targetDir "skip").1 =
        skippedResult "network_error" none := by
      simp [importArxivPaper, hin, hdir, hcd, hisdir, hclient, hsend, hstatus, hd2]
    rw [himp]
    refine ⟨?_, ?_, ?_⟩ <;> simp [skippedResult, metadataResolved, hd2]
  case pos =>
  match hfeed : env.feedParsed with
  | none =>
    have himp : (importArxivPaper env input targetDir "skip").1 =
        skippedResult "paper_not_found" none := by
      simp [importArxivPaper, hin, hdir, hcd, hisdir, hclient, hsend, hstatus, htext, hfeed]
    rw [himp]
    refine ⟨?_, ?_, ?_⟩ <;> simp [skippedResult, metadataResolved, hfeed, resolvedEntry]
  | some feed =>
  match hentries : feed.entry with
  | [] =>
    have himp : (importArxivPaper env input targetDir "skip").1 =
        skippedResult "paper_not_found" none := by
      simp [importArxivPaper, hin, hdir, hcd, hisdir, hclient, hsend, hstatus, htext,
        hfeed, hentries]
    rw [himp]
    refine ⟨?_, ?_, ?_⟩ <;>
      simp [skippedResult, metadataResolved, hfeed, hentries, resolvedEntry]
  | e :: rest =>
  have hres : metadataResolved env input targetDir "skip" = true := by
    simp [metadataResolved, hin, hdir, hor, hisdir, hclient, hsend, hstatus, htext,
      hfeed, hentries]
  have hre : resolvedEntry env = some e := by
    simp [resolvedEntry, hfeed, hentries]
  have himp := importArxiv_past_meta env input targetDir b0 r0 feed e rest hin hdir hcd
    hisdir hclient hsend hstatus htext hfeed hentries
  by_cases hpdf : env.pdfExists = true
  case pos =>
    rw [himp, if_pos hpdf]
    refine ⟨?_, ?_, ?_⟩
    · intro _
      rw [hres]
      rfl
    · intro _
      exact hpdf
    · intro b r e2 hin2 hre2 _ _
      injection hin2 with hin2
      injection hin2 with hb hr
      rw [hre] at hre2
      injection hre2 with he
      rw [← hb, ← hr, ← he]
  case neg =>
    rw [himp, if_neg hpdf]
    refine ⟨?_, ?_, ?_⟩
    · intro _
      rw [hres, importDownloadPhase_paper]
      rfl
    · intro hr2
      exact absurd hr2 (importDownloadPhase_reason _ _ _ _)
    · intro b r e2 hin2 hre2 _ _
      injection hin2 with hin2
      injection hin2 with hb hr
      rw [hre] at hre2
      injection hre2 with he
      rw [← hb, ← hr, ← he, importDownloadPhase_paper]

/-! ## Claim C3 (metadata attachment on skipped outcomes) -/

/-- C3: a `Skipped` outcome carries metadata exactly when metadata
resolution succeeded (policy valid, input parseable, directory usable,
client built, metadata fetched and decoded with at least one entry), and
the attached metadata is precisely the record resolved from the head
feed entry. -/
theorem c3_skipped_metadata (env : Env) (input targetDir conflictPolicy : String) :
    ((importArxivPaper env input targetDir conflictPolicy).1.status = "skipped" →
      (importArxivPaper env input targetDir conflictPolicy).1.paper.isSome =
        metadataResolved env input targetDir conflictPolicy) ∧
    (∀ (b : String) (r : Option Nat) (e : ArxivApiEntry),
      parseArxivInput input = some (b, r) → resolvedEntry env = some e →
      (importArxivPaper env input targetDir conflictPolicy).1.status = "skipped" →
      metadataResolved env input targetDir conflictPolicy = true →
      (importArxivPaper env input targetDir conflictPolicy).1.paper =
        some (resolvePaper b r e)) :=
  ⟨(importArxiv_skipped_paper env input targetDir conflictPolicy).1,
   (importArxiv_skipped_paper env input targetDir conflictPolicy).2.2⟩

/-- C3 witness: a PDF-fetch failure after successful metadata resolution
attaches the resolved metadata. -/
theorem c3_witness :
    (importArxivPaper { envW with pdfSendOk := false } "1706.03762" "/papers" "skip").1.paper.isSome =
      metadataResolved { envW with pdfSendOk := false } "1706.03762" "/papers" "skip" ∧
    (importArxivPaper { envW with pdfSendOk := false } "1706.03762" "/papers" "skip").1.paper =
      some (resolvePaper "1706.03762" none entryW) :=
  ⟨(c3_skipped_metadata { envW with pdfSendOk := false } "1706.03762" "/papers" "skip").1
     (by decide),
   (c3_skipped_metadata { envW with pdfSendOk := false } "1706.03762" "/papers" "skip").2
     "1706.03762" none entryW (by decide) (by decide) (by decide) (by decide)⟩

/-! ## Claim C5 (file_exists conflict outcome) -/

/-- C5: under the `"skip"` policy, when metadata resolution succeeds and
the computed PDF path already exists, the import terminates with reason
`file_exists`, reports the computed PDF path, includes the metadata path
only when the sidecar also exists, attaches the resolved metadata, and
performs no PDF download (the only GET issued is the metadata query). -/
theorem c5_conflict_file_exists (env : Env) (input targetDir b : String) (r : Option Nat)
    (feed : ArxivApiFeed) (e : ArxivApiEntry) (rest : List ArxivApiEntry)
    (hin : parseArxivInput input = some (b, r))
    (hdir : ¬rustTrim targetDir = "")
    (hcd : ¬(!env.targetExists && !env.createDirOk) = true)
    (hisdir : env.targetIsDir = true)
    (hclient : env.clientBuildOk = true)
    (hsend : env.apiSendOk = true)
    (hstatus : httpSuccess env.apiStatus = true)
    (htext : env.apiTextOk = true)
    (hfeed : env.feedParsed = some feed)
    (hentries : feed.entry = e :: rest)
    (hpdf : env.pdfExists = true) :
    (importArxivPaper env input targetDir "skip").1 =
      { status := "skipped", reason := some "file_exists",
        pdf_path := some (joinPath targetDir (stemOfPaper (resolvePaper b r e) ++ ".pdf")),
        pdf_size := none,
        metadata_path := if env.metaExists then
          some (joinPath targetDir (stemOfPaper (resolvePaper b r e) ++ ".metadata.json"))
        else none,
        paper := some (resolvePaper b r e) } ∧
    (∀ u, FsEffect.netGet u ∈ (importArxivPaper env input targetDir "skip").2 →
      u = "https://export.arxiv.org/api/query?id_list=" ++ b) := by
  have himp := importArxiv_past_meta env input targetDir b r feed e rest hin hdir hcd hisdir
    hclient hsend hstatus htext hfeed hentries
  rw [himp, if_pos hpdf]
  refine ⟨rfl, ?_⟩
  intro u hu
  rcases List.mem_append.mp hu with hu | hu
  · by_cases hte : env.targetExists = true
    · rw [if_pos hte] at hu
      cases hu
    · rw [if_neg hte] at hu
      simp at hu
  · simp at hu
    exact hu

/-- C5 witness against identifier `2301.12345` with a pre-existing PDF
and sidecar. -/
theorem c5_witness :
    (importArxivPaper { envW with pdfExists := true, metaExists := true }
        "2301.12345" "/papers" "skip").1 =
      { status := "skipped", reason := some "file_exists",
        pdf_path := some (joinPath "/papers"
          (stemOfPaper (resolvePaper "2301.12345" none entryW) ++ ".pdf")),
        pdf_size := none,
        metadata_path := if ({ envW with pdfExists := true, metaExists := true } : Env).metaExists
          then some (joinPath "/papers"
            (stemOfPaper (resolvePaper "2301.12345" none entryW) ++ ".metadata.json"))
          else none,
        paper := some (resolvePaper "2301.12345" none entryW) } ∧
    (∀ u, FsEffect.netGet u ∈
        (importArxivPaper { envW with pdfExists := true, metaExists := true }
          "2301.12345" "/papers" "skip").2 →
      u = "https://export.arxiv.org/api/query?id_list=" ++ "2301.12345") :=
  c5_conflict_file_exists { envW with pdfExists := true, metaExists := true }
    "2301.12345" "/papers" "2301.12345" none ⟨[entryW]⟩ entryW []
    (by decide) (by decide) (by decide) rfl rfl rfl rfl rfl rfl rfl rfl

/-! ## Claim C9 (no rollback after a sidecar-write failure) -/

/-- C9: when the PDF has been written and the sidecar metadata step then
fails (serialization or file I/O), the import reports `write_failed`
with the resolved metadata attached, the trace contains the successful
PDF write and no removal whatsoever, so the PDF remains on disk in every
starting file state — the pipeline performs no rollback. -/
theorem c9_no_rollback (env : Env) (input targetDir b : String) (r : Option Nat)
    (feed : ArxivApiFeed) (e : ArxivApiEntry) (rest : List ArxivApiEntry)
    (hin : parseArxivInput input = some (b, r))
    (hdir : ¬rustTrim targetDir = "")
    (hcd : ¬(!env.targetExists && !env.createDirOk) = true)
    (hisdir : env.targetIsDir = true)
    (hclient : env.clientBuildOk = true)
    (hsend : env.apiSendOk = true)
    (hstatus : httpSuccess env.apiStatus = true)
    (htext : env.apiTextOk = true)
    (hfeed : env.feedParsed = some feed)
    (hentries : feed.entry = e :: rest)
    (hpdf : env.pdfExists = false)
    (hps : env.pdfSendOk = true)
    (hpst : httpSuccess env.pdfStatus = true)
    (hpb : env.pdfBytesOk = true)
    (hpw : env.pdfWriteOk = true)
    (hfail : env.serializeOk = false ∨ env.metaWriteOk = false) :
    (importArxivPaper env input targetDir "skip").1.status = "skipped" ∧
    (importArxivPaper env input targetDir "skip").1.reason = some "write_failed" ∧
    (importArxivPaper env input targetDir "skip").1.paper = some (resolvePaper b r e) ∧
    FsEffect.writeFile (joinPath targetDir (stemOfPaper (resolvePaper b r e) ++ ".pdf"))
      ∈ (importArxivPaper env input targetDir "skip").2 ∧
    (∀ p, FsEffect.removeFile p ∉ (importArxivPaper env input targetDir "skip").2) ∧
    (∀ fs0, joinPath targetDir (stemOfPaper (resolvePaper b r e) ++ ".pdf")
      ∈ runFs fs0 (importArxivPaper env input targetDir "skip").2) := by
  have himp := importArxiv_past_meta env input targetDir b r feed e rest hin hdir hcd hisdir
    hclient hsend hstatus htext hfeed hentries
  have hnpdf : ¬env.pdfExists = true := by simp [hpdf]
  rw [himp, if_neg hnpdf]
  have hphase : importDownloadPhase env (resolvePaper b r e)
      (joinPath targetDir (stemOfPaper (resolvePaper b r e) ++ ".pdf"))
      (joinPath targetDir (stemOfPaper (resolvePaper b r e) ++ ".metadata.json")) =
      (skippedResult "write_failed" (some (resolvePaper b r e)),
       [FsEffect.netGet (resolvePaper b r e).pdf_url,
        FsEffect.writeFile (joinPath targetDir (stemOfPaper (resolvePaper b r e) ++ ".pdf"))]) := by
    simp only [importDownloadPhase]
    rcases hfail with hf | hf
    · simp [hps, hpst, hpb, hpw, hf]
    · by_cases hser : env.serializeOk = true
      · simp [hps, hpst, hpb, hpw, hser, hf]
      · have hser2 : env.serializeOk = false := by
          revert hser
          cases env.serializeOk <;> simp
        simp [hps, hpst, hpb, hpw, hser2]
  rw [hphase]
  refine ⟨rfl, rfl, rfl, ?_, ?_, ?_⟩
  · simp
  · intro p
    by_cases hte : env.targetExists = true <;> simp [hte]
  · intro fs0
    apply runFs_mem_write
    · simp
    · intro q
      by_cases hte : env.targetExists = true <;> simp [hte]

/-- C9 witness: sidecar write fails after the PDF write; starting from
an empty file set the PDF is present afterwards. -/
theorem c9_witness :
    (importArxivPaper { envW with metaWriteOk := false } "1706.03762" "/papers" "skip").1.status
      = "skipped" ∧
    (importArxivPaper { envW with metaWriteOk := false } "1706.03762" "/papers" "skip").1.reason
      = some "write_failed" ∧
    FsEffect.writeFile (joinPath "/papers"
        (stemOfPaper (resolvePaper "1706.03762" none entryW) ++ ".pdf"))
      ∈ (importArxivPaper { envW with metaWriteOk := false } "1706.03762" "/papers" "skip").2 ∧
    joinPath "/papers" (stemOfPaper (resolvePaper "1706.03762" none entryW) ++ ".pdf")
      ∈ runFs [] (importArxivPaper { envW with metaWriteOk := false }
          "1706.03762" "/papers" "skip").2 :=
  have h := c9_no_rollback { envW with metaWriteOk := false } "1706.03762" "/papers"
    "1706.03762" none ⟨[entryW]⟩ entryW []
    (by decide) (by decide) (by decide) rfl rfl rfl rfl rfl rfl rfl rfl rfl rfl rfl rfl
    (Or.inr rfl)
  ⟨h.1, h.2.1, h.2.2.2.1, h.2.2.2.2.2 []⟩

/-! ## Claim C10 (conflict check consults only the PDF path) -/

/-- C10: the conflict check consults only the PDF path — when the PDF
does not exist at its computed path, no outcome carries reason
`file_exists` (even if the sidecar exists), and a fully successful run
under an existing sidecar downloads the PDF and (over)writes the
sidecar at the computed metadata path. -/
theorem c10_conflict_pdf_only :
    (∀ (env : Env) (input targetDir conflictPolicy : String),
      env.pdfExists = false →
      (importArxivPaper env input targetDir conflictPolicy).1.reason ≠ some "file_exists") ∧
    (∀ (env : Env) (input targetDir b : String) (r : Option Nat) (feed : ArxivApiFeed)
        (e : ArxivApiEntry) (rest : List ArxivApiEntry),
      parseArxivInput input = some (b, r) → ¬rustTrim targetDir = "" →
      ¬(!env.targetExists && !env.createDirOk) = true → env.targetIsDir = true →
      env.clientBuildOk = true → env.apiSendOk = true → httpSuccess env.apiStatus = true →
      env.apiTextOk = true → env.feedParsed = some feed → feed.entry = e :: rest →
      env.pdfExists = false → env.metaExists = true →
      env.pdfSendOk = true → httpSuccess env.pdfStatus = true → env.pdfBytesOk = true →
      env.pdfWriteOk = true → env.serializeOk = true → env.metaWriteOk = true →
      (importArxivPaper env input targetDir "skip").1.status = "downloaded" ∧
      FsEffect.writeFile
          (joinPath targetDir (stemOfPaper (resolvePaper b r e) ++ ".metadata.json"))
        ∈ (importArxivPaper env input targetDir "skip").2) := by
  constructor
  · intro env input dir policy hpdf hreason
    have h := (importArxiv_skipped_paper env input dir policy).2.1 hreason
    rw [hpdf] at h
    cases h
  · intro env input dir b r feed e rest hin hdir hcd hisdir hclient hsend hstatus htext
      hfeed hentries hpdf hmeta hps hpst hpb hpw hser hmw
    have himp := importArxiv_past_meta env input dir b r feed e rest hin hdir hcd hisdir
      hclient hsend hstatus htext hfeed hentries
    have hnpdf : ¬env.pdfExists = true := by simp [hpdf]
    rw [himp, if_neg hnpdf]
    have hphase : importDownloadPhase env (resolvePaper b r e)
        (joinPath dir (stemOfPaper (resolvePaper b r e) ++ ".pdf"))
        (joinPath dir (stemOfPaper (resolvePaper b r e) ++ ".metadata.json")) =
        ({ status := "downloaded", reason := none,
           pdf_path := some (joinPath dir (stemOfPaper (resolvePaper b r e) ++ ".pdf")),
           pdf_size := some env.pdfByteLen,
           metadata_path :=
             some (joinPath dir (stemOfPaper (resolvePaper b r e) ++ ".metadata.json")),
           paper := some (resolvePaper b r e) },
         [FsEffect.netGet (resolvePaper b r e).pdf_url,
          FsEffect.writeFile (joinPath dir (stemOfPaper (resolvePaper b r e) ++ ".pdf")),
          FsEffect.writeFile
            (joinPath dir (stemOfPaper (resolvePaper b r e) ++ ".metadata.json"))]) := by
      simp [importDownloadPhase, hps, hpst, hpb, hpw, hser, hmw]
    rw [hphase]
    refine ⟨rfl, ?_⟩
    simp

/-- C10 witness: with the sidecar present and the PDF absent the import
downloads and rewrites the sidecar. -/
theorem c10_witness :
    (importArxivPaper { envW with metaExists := true } "1706.03762" "/papers" "skip").1.reason
      ≠ some "file_exists" ∧
    (importArxivPaper { envW with metaExists := true } "1706.03762" "/papers" "skip").1.status
      = "downloaded" ∧
    FsEffect.writeFile (joinPath "/papers"
        (stemOfPaper (resolvePaper "1706.03762" none entryW) ++ ".metadata.json"))
      ∈ (importArxivPaper { envW with metaExists := true } "1706.03762" "/papers" "skip").2 :=
  have h2 := c10_conflict_pdf_only.2 { envW with metaExists := true } "1706.03762" "/papers"
    "1706.03762" none ⟨[entryW]⟩ entryW []
    (by decide) (by decide) (by decide) rfl rfl rfl rfl rfl rfl rfl rfl rfl rfl rfl rfl rfl rfl
    rfl
  ⟨c10_conflict_pdf_only.1 { envW with metaExists := true } "1706.03762" "/papers" "skip" rfl,
   h2.1, h2.2⟩
